import Mathlib

/-!
Shallow embedding of the isopod addon installer core, developed from the Go
sources: the kpath splitter (pkg/kpath/kpath.go), the YAML diff filters
(pkg/kube), the module loader (pkg/loader/loader.go), the kube apply engine
(pkg/kube), the kubeGet wait loop, and the rollout store together with the
install command (pkg/runtime/runtime.go, pkg/store/kube/store.go).

Go strings are modelled as `List Char` where byte-level indexing matters and
as `String` elsewhere; Go `error` results are modelled with `Except String`
or `Option String`; mutation is modelled by explicit state passing.
-/

namespace Isopod

/-! ### kpath (pkg/kpath/kpath.go)

`Split` parses a kpath string into parts.  The Go code indexes into the
string by byte; we model the string as a `List Char`. -/

namespace Kpath

/-- Result of one `parse` step: the extracted part, the remaining path, and
whether more parts are expected (fields `Part`, `Path`, `More` of the Go
struct `kpath`). -/
structure KpathPart where
  part : List Char
  path : List Char
  more : Bool
deriving DecidableEq, Repr

/-- Model of Go `strings.Index(s, sub)`: index of the first occurrence of
`sub` in `s`, `none` when absent (Go returns -1). -/
def idxOfSub (sub : List Char) : List Char → Option Nat
  | [] => if sub.isPrefixOf ([] : List Char) then some 0 else none
  | c :: cs =>
    if sub.isPrefixOf (c :: cs) then some 0
    else (idxOfSub sub cs).map (· + 1)

/-- Model of Go `strings.IndexRune(s, c)`. -/
def idxOfChar (c : Char) : List Char → Option Nat
  | [] => none
  | d :: ds => if d = c then some 0 else (idxOfChar c ds).map (· + 1)

/-- First index at which either of two delimiter characters occurs: the Go
loop in `parse` checks `path[i] == '.'` and then `path[i] == '['` position
by position. -/
def idxOfChar2 (a b : Char) : List Char → Option Nat
  | [] => none
  | d :: ds => if d = a ∨ d = b then some 0 else (idxOfChar2 a b ds).map (· + 1)

/-- The tail handling shared by both bracket branches of `parse`: Go sets
`More`/`Path` when `len(path) > i`, excluding a following period delimiter
and keeping any other delimiter. -/
def bracketTail (part : List Char) (i : Nat) (path : List Char) : KpathPart :=
  if path.length > i then
    if path.get? i = some '.' then ⟨part, path.drop (i + 1), true⟩
    else ⟨part, path.drop i, true⟩
  else ⟨part, [], false⟩

/-- Model of `parse` from pkg/kpath/kpath.go.  Extracts the first part of a
kpath.  Note: in the quoted-bracket branch Go slices `path[2:i]`; for the
degenerate input `["]...` Go would panic on the reversed slice — we use
`drop`/`take`, which is total (such inputs are not relevant to any
unclosed-bracket behaviour). -/
def parse (path : List Char) : Except String KpathPart :=
  if path = [] then .error "empty path"
  else if path.head? = some '[' then
    if path.length < 2 then .error "unclosed array index in path"
    else if path.get? 1 = some '"' then
      -- explicit string map index
      match idxOfSub ['"', ']'] path with
      | none => .error "unclosed map index in path"
      | some i => .ok (bracketTail ((path.drop 2).take (i - 2)) (i + 2) path)
    else
      -- array index
      match idxOfChar ']' path with
      | none => .error "unclosed array index in path"
      | some i => .ok (bracketTail ((path.drop 1).take (i - 1)) (i + 1) path)
  else
    -- implicit string map index
    match idxOfChar2 '.' '[' path with
    | some i =>
      if path.get? i = some '.' then .ok ⟨path.take i, path.drop (i + 1), true⟩
      else .ok ⟨path.take i, path.drop i, true⟩
    | none => .ok ⟨path, [], false⟩

/-- The loop body of `Split`, with explicit fuel.  The Go loop appends
`r.Part`, continues on `r.More` with `path = r.Path`, and on a parse error
returns the parts collected so far together with the error (`Split` callers
only inspect the error, which the model keeps). -/
def splitAux : Nat → List Char → Except String (List (List Char))
  | 0, _ => .error "fuel exhausted (model artifact; unreachable for fuel > length)"
  | fuel + 1, path =>
    match parse path with
    | .error e => .error e
    | .ok r =>
      if r.more then
        match splitAux fuel r.path with
        | .error e => .error e
        | .ok s => .ok (r.part :: s)
      else .ok [r.part]

/-- Model of `Split` from pkg/kpath/kpath.go, on `List Char`.  Each `More`
iteration strictly shrinks the path (`parse_more_shrinks`), so `length + 1`
fuel always suffices. -/
def splitL (path : List Char) : Except String (List (List Char)) :=
  splitAux (path.length + 1) path

/-- Model of `kpath.Split` on `String`. -/
def Split (path : String) : Except String (List String) :=
  (splitL path.toList).map (List.map (fun cs => String.mk cs))

/-- A bracket segment is opened at the front of `p` but never closed: no
matching `"]` (quoted map index) respectively `]` (array index) occurs in
the remainder (this includes a bare trailing `[`). -/
def unclosedBracket (p : List Char) : Bool :=
  if p.head? = some '[' then
    if p.length < 2 then true
    else if p.get? 1 = some '"' then (idxOfSub ['"', ']'] p).isNone
    else (idxOfChar ']' p).isNone
  else false

/-- The path suffixes visited by the `Split` loop: `ReachesSuffix s p` holds
when the loop, started on input `s`, at some iteration has remaining path
`p`. -/
inductive ReachesSuffix : List Char → List Char → Prop
  | refl (s : List Char) : ReachesSuffix s s
  | step {s t : List Char} {r : KpathPart} :
      parse s = .ok r → r.more = true → ReachesSuffix r.path t → ReachesSuffix s t

theorem idxOfChar2_found {a b : Char} {s : List Char} {i : Nat}
    (h : idxOfChar2 a b s = some i) : s.get? i = some a ∨ s.get? i = some b := by
  induction s generalizing i with
  | nil => simp [idxOfChar2] at h
  | cons d ds ih =>
    simp only [idxOfChar2] at h
    split at h
    next hd =>
      cases h
      rcases hd with rfl | rfl
      · exact Or.inl List.get?_cons_zero
      · exact Or.inr List.get?_cons_zero
    next =>
      simp only [Option.map_eq_some'] at h
      obtain ⟨j, hj, rfl⟩ := h
      rw [List.get?_cons_succ]
      exact ih hj

theorem bracketTail_shrinks {part : List Char} {i : Nat} {path : List Char}
    (hi : 0 < i) (hm : (bracketTail part i path).more = true) :
    (bracketTail part i path).path.length < path.length := by
  unfold bracketTail at hm ⊢
  by_cases hlen : path.length > i
  · rw [if_pos hlen] at hm ⊢
    by_cases hdot : path.get? i = some '.'
    · rw [if_pos hdot]
      simp only [List.length_drop]
      omega
    · rw [if_neg hdot]
      simp only [List.length_drop]
      omega
  · rw [if_neg hlen] at hm
    simp at hm

/-- Each `More` step of the splitter strictly shrinks the remaining path. -/
theorem parse_more_shrinks {path : List Char} {r : KpathPart}
    (h : parse path = .ok r) (hm : r.more = true) :
    r.path.length < path.length := by
  unfold parse at h
  split at h
  · exact absurd h (by simp)
  next hnil =>
    have hpos : 0 < path.length := List.length_pos.mpr hnil
    split at h
    next hhead =>
      split at h
      · exact absurd h (by simp)
      · split at h
        · -- quoted map index branch
          split at h
          · exact absurd h (by simp)
          next i hidx =>
            cases h
            exact bracketTail_shrinks (by omega) hm
        · -- array index branch
          split at h
          · exact absurd h (by simp)
          next i hidx =>
            cases h
            exact bracketTail_shrinks (by omega) hm
    next hhead =>
      -- implicit map index branch
      split at h
      next i hidx =>
        split at h
        · cases h
          simp only [List.length_drop]
          omega
        next hdot =>
          cases h
          have hfound := idxOfChar2_found hidx
          have hipos : 0 < i := by
            rcases hfound with h1 | h1
            · exact absurd h1 hdot
            · rcases Nat.eq_zero_or_pos i with rfl | hpos'
              · rw [List.get?_zero] at h1
                exact absurd h1 hhead
              · exact hpos'
          simp only [List.length_drop]
          omega
      next =>
        cases h
        exact absurd hm (by simp)

/-- Fuel above the path length is irrelevant for `splitAux`. -/
theorem splitAux_fuel : ∀ (n : Nat) {m : Nat} (path : List Char),
    path.length < n → path.length < m → splitAux n path = splitAux m path := by
  intro n
  induction n with
  | zero =>
    intro m path hn hm
    exact absurd hn (by omega)
  | succ k ih =>
    intro m path hn hm
    obtain ⟨m', rfl⟩ : ∃ m'', m = m'' + 1 := ⟨m - 1, by omega⟩
    simp only [splitAux]
    cases hp : parse path with
    | error e => rfl
    | ok r =>
      by_cases hmore : r.more = true
      · have hs := parse_more_shrinks hp hmore
        simp only [hmore, if_true]
        rw [ih (m := m') r.path (by omega) (by omega)]
      · rw [Bool.not_eq_true] at hmore
        simp [hmore]

theorem unclosedBracket_parse_error {p : List Char}
    (h : unclosedBracket p = true) : ∃ e, parse p = .error e := by
  by_cases hnil : p = []
  · subst hnil
    simp [unclosedBracket] at h
  · by_cases h1 : p.head? = some '['
    · by_cases h2 : p.length < 2
      · exact ⟨_, by unfold parse; rw [if_neg hnil, if_pos h1, if_pos h2]⟩
      · by_cases h3 : p.get? 1 = some '"'
        · have hidx : idxOfSub ['"', ']'] p = none := by
            unfold unclosedBracket at h
            rw [if_pos h1, if_neg h2, if_pos h3] at h
            exact Option.isNone_iff_eq_none.mp h
          exact ⟨_, by
            unfold parse
            rw [if_neg hnil, if_pos h1, if_neg h2, if_pos h3, hidx]⟩
        · have hidx : idxOfChar ']' p = none := by
            unfold unclosedBracket at h
            rw [if_pos h1, if_neg h2, if_neg h3] at h
            exact Option.isNone_iff_eq_none.mp h
          exact ⟨_, by
            unfold parse
            rw [if_neg hnil, if_pos h1, if_neg h2, if_neg h3, hidx]⟩
    · unfold unclosedBracket at h
      rw [if_neg h1] at h
      exact absurd h (by simp)

/-- If the `Split` loop ever reaches a suffix with an unclosed bracket, the
whole `Split` call returns a parse error. -/
theorem splitL_error_of_reaches {s p : List Char}
    (hr : ReachesSuffix s p) (hp : unclosedBracket p = true) :
    ∃ e, splitL s = .error e := by
  induction hr with
  | refl s =>
    obtain ⟨e, he⟩ := unclosedBracket_parse_error hp
    refine ⟨e, ?_⟩
    unfold splitL
    simp only [splitAux, he]
  | @step s t r hparse hmore _ ih =>
    obtain ⟨e, he⟩ := ih hp
    refine ⟨e, ?_⟩
    have hs := parse_more_shrinks hparse hmore
    unfold splitL at he ⊢
    simp only [splitAux, hparse, hmore, if_true]
    rw [splitAux_fuel s.length (m := r.path.length + 1) r.path (by omega) (by omega)]
    rw [he]

/-- C6: `kpath.Split("a.b[\"c.d\"][2].e")` returns exactly
`["a", "b", "c.d", "2", "e"]` with no error; and for every input in which
the splitter reaches a bracket segment that is opened but not closed (no
matching `]` or `"]`), `Split` returns a parse error. -/
theorem C6_kpath_split :
    Split "a.b[\"c.d\"][2].e" = .ok ["a", "b", "c.d", "2", "e"] ∧
    ∀ (s : String) (p : List Char), ReachesSuffix s.toList p →
      unclosedBracket p = true → ∃ e, Split s = .error e := by
  constructor
  · rfl
  · intro s p hr hp
    obtain ⟨e, he⟩ := splitL_error_of_reaches hr hp
    refine ⟨e, ?_⟩
    unfold Split
    rw [he]
    rfl

/-- Witness for C6: the input `x.a[2` reaches the unclosed suffix `[2` and
`Split` indeed returns a parse error on it. -/
theorem C6_kpath_split_witness :
    unclosedBracket ['[', '2'] = true ∧ ∃ e, Split "x.a[2" = .error e := by
  have h1 : parse "x.a[2".toList = .ok ⟨['x'], ['a', '[', '2'], true⟩ := by rfl
  have h2 : parse ['a', '[', '2'] = .ok ⟨['a'], ['[', '2'], true⟩ := by rfl
  have hr : ReachesSuffix "x.a[2".toList ['[', '2'] :=
    .step h1 rfl (.step h2 rfl (.refl _))
  exact ⟨by decide, C6_kpath_split.2 "x.a[2" ['[', '2'] hr (by decide)⟩

end Kpath

/-! ### YAML diff filters (pkg/kube: filterYaml, renderObj)

`renderObj` renders an object to YAML, parses it into an ordered map slice
(`yaml.MapSlice`), and prunes each user filter path with `filterYaml`. -/

namespace Yaml

/-- A YAML value as produced by gopkg.in/yaml.v2 when unmarshalling a
rendered object: scalars, sequences, and ordered maps (`yaml.MapSlice`, a
list of key/value `MapItem`s whose keys are arbitrary values). -/
inductive Val where
  | str (s : String)
  | int (n : Int)
  | bool (b : Bool)
  | null
  | seq (items : List Val)
  | map (items : List (Val × Val))

/-- Model of the Go key test `f, ok := item.Key.(string); ok && f == yamlPath[0]`:
the key is a string and equals the current path segment. -/
def keyMatches : Val → String → Bool
  | Val.str f, p => f = p
  | _, _ => false

/-- Model of `filterYaml` (pkg/kube): removes the element at `yamlPath`
from the map slice `m`.  Go accesses `yamlPath[0]` unconditionally (the
path is non-empty at every call site), so the model takes the head `p` and
tail `ps` separately.  An item is skipped when its key matches `p` and the
path is exhausted; when more path remains the function recurses only into
values that are map slices and keeps every other value — in particular
every sequence — unchanged. -/
def filterYaml : List (Val × Val) → String → List String → List (Val × Val)
  | [], _, _ => []
  | (k, v) :: rest, p, ps =>
    if keyMatches k p then
      match ps with
      | [] => filterYaml rest p []
      | p1 :: ps1 =>
        match v with
        | Val.map mm => (k, Val.map (filterYaml mm p1 ps1)) :: filterYaml rest p (p1 :: ps1)
        | _ => (k, v) :: filterYaml rest p (p1 :: ps1)
    else (k, v) :: filterYaml rest p ps

/-- The path segment `s` is numeric, i.e. written to address an array
index such as the `0` of `spec.ports[0].nodePort`. -/
def numericSeg (s : String) : Bool := s ≠ "" && s.toList.all Char.isDigit

/-- The filter path `p :: ps`, followed through nested YAML maps starting
from the map slice `m`, reaches a value that is a YAML sequence (an array)
and addresses into it with a numeric segment while path still remains. -/
inductive SeqAddressed : List (Val × Val) → String → List String → Prop
  | stop (m : List (Val × Val)) (p n : String) (ps : List String) :
      numericSeg n = true →
      (∀ k v, (k, v) ∈ m → keyMatches k p = true → ∃ l, v = Val.seq l) →
      (∃ l, (Val.str p, Val.seq l) ∈ m) →
      SeqAddressed m p (n :: ps)
  | deeper (m : List (Val × Val)) (p p1 : String) (ps : List String) :
      (∀ k v, (k, v) ∈ m → keyMatches k p = true → ∃ mm, v = Val.map mm) →
      (∀ k mm, (k, Val.map mm) ∈ m → keyMatches k p = true → SeqAddressed mm p1 ps) →
      SeqAddressed m p (p1 :: ps)

theorem filterYaml_nil (p : String) (ps : List String) : filterYaml [] p ps = [] := by
  rw [filterYaml.eq_def]

theorem filterYaml_cons (k v : Val) (rest : List (Val × Val)) (p : String) (ps : List String) :
    filterYaml ((k, v) :: rest) p ps =
      if keyMatches k p then
        match ps with
        | [] => filterYaml rest p []
        | p1 :: ps1 =>
          match v with
          | Val.map mm => (k, Val.map (filterYaml mm p1 ps1)) :: filterYaml rest p (p1 :: ps1)
          | _ => (k, v) :: filterYaml rest p (p1 :: ps1)
      else (k, v) :: filterYaml rest p ps := by
  rw [filterYaml.eq_def]

/-- With a non-exhausted path, `filterYaml` is the identity as soon as
every matching map value is left fixed by the recursive call. -/
theorem filterYaml_eq_self {m : List (Val × Val)} {p p1 : String} {ps : List String}
    (h : ∀ k v, (k, v) ∈ m → keyMatches k p = true →
      ∀ mm, v = Val.map mm → filterYaml mm p1 ps = mm) :
    filterYaml m p (p1 :: ps) = m := by
  induction m with
  | nil => exact filterYaml_nil ..
  | cons item rest ih =>
    obtain ⟨k, v⟩ := item
    have hrest : filterYaml rest p (p1 :: ps) = rest :=
      ih fun k' v' hm hk => h k' v' (List.mem_cons_of_mem _ hm) hk
    rw [filterYaml_cons]
    by_cases hk : keyMatches k p = true
    · cases v with
      | map mm =>
        have hv := h k (Val.map mm) (List.mem_cons_self ..) hk mm rfl
        simp [hk, hv, hrest]
      | str s => simp [hk, hrest]
      | int n => simp [hk, hrest]
      | bool b => simp [hk, hrest]
      | null => simp [hk, hrest]
      | seq l => simp [hk, hrest]
    · rw [Bool.not_eq_true] at hk
      simp [hk, hrest]

/-- A filter path that indexes into an array leaves the map slice
untouched: `filterYaml` recurses only into map values. -/
theorem filterYaml_seqAddressed_unchanged {m : List (Val × Val)} {p : String}
    {ps : List String} (h : SeqAddressed m p ps) : filterYaml m p ps = m := by
  induction h with
  | stop m p n ps hn hall hex =>
    apply filterYaml_eq_self
    intro k v hmem hk mm hv
    obtain ⟨l, hl⟩ := hall k v hmem hk
    rw [hl] at hv
    cases hv
  | deeper m p p1 ps hmap hrec ih =>
    apply filterYaml_eq_self
    intro k v hmem hk mm hv
    subst hv
    exact ih k mm hmem hk

/-- Every item that `filterYaml` emits is either an input item kept
unchanged, or an input item whose value was a YAML map and was filtered
recursively; nothing else — in particular no sequence — is rewritten. -/
theorem filterYaml_item_src {m : List (Val × Val)} {p : String} {ps : List String} :
    ∀ item ∈ filterYaml m p ps, item ∈ m ∨
      ∃ k mm p1 ps1, ps = p1 :: ps1 ∧ keyMatches k p = true ∧
        (k, Val.map mm) ∈ m ∧ item = (k, Val.map (filterYaml mm p1 ps1)) := by
  induction m with
  | nil =>
    rw [filterYaml_nil]
    intro item h
    cases h
  | cons kv rest ih =>
    obtain ⟨k, v⟩ := kv
    intro item hit
    rw [filterYaml_cons] at hit
    by_cases hk : keyMatches k p = true
    · rw [if_pos hk] at hit
      cases ps with
      | nil =>
        rcases ih item hit with h | ⟨k', mm, p1, ps1, h1, _⟩
        · exact Or.inl (List.mem_cons_of_mem _ h)
        · cases h1
      | cons p1 ps1 =>
        cases v with
        | map mm =>
          rcases List.mem_cons.mp hit with rfl | hit'
          · exact Or.inr ⟨k, mm, p1, ps1, rfl, hk, List.mem_cons_self .., rfl⟩
          · rcases ih item hit' with h | ⟨k', mm', p1', ps1', h1, h2, h3, h4⟩
            · exact Or.inl (List.mem_cons_of_mem _ h)
            · exact Or.inr ⟨k', mm', p1', ps1', h1, h2, List.mem_cons_of_mem _ h3, h4⟩
        | str s =>
          rcases List.mem_cons.mp hit with rfl | hit'
          · exact Or.inl (List.mem_cons_self ..)
          · rcases ih item hit' with h | ⟨k', mm', p1', ps1', h1, h2, h3, h4⟩
            · exact Or.inl (List.mem_cons_of_mem _ h)
            · exact Or.inr ⟨k', mm', p1', ps1', h1, h2, List.mem_cons_of_mem _ h3, h4⟩
        | int n =>
          rcases List.mem_cons.mp hit with rfl | hit'
          · exact Or.inl (List.mem_cons_self ..)
          · rcases ih item hit' with h | ⟨k', mm', p1', ps1', h1, h2, h3, h4⟩
            · exact Or.inl (List.mem_cons_of_mem _ h)
            · exact Or.inr ⟨k', mm', p1', ps1', h1, h2, List.mem_cons_of_mem _ h3, h4⟩
        | bool b =>
          rcases List.mem_cons.mp hit with rfl | hit'
          · exact Or.inl (List.mem_cons_self ..)
          · rcases ih item hit' with h | ⟨k', mm', p1', ps1', h1, h2, h3, h4⟩
            · exact Or.inl (List.mem_cons_of_mem _ h)
            · exact Or.inr ⟨k', mm', p1', ps1', h1, h2, List.mem_cons_of_mem _ h3, h4⟩
        | null =>
          rcases List.mem_cons.mp hit with rfl | hit'
          · exact Or.inl (List.mem_cons_self ..)
          · rcases ih item hit' with h | ⟨k', mm', p1', ps1', h1, h2, h3, h4⟩
            · exact Or.inl (List.mem_cons_of_mem _ h)
            · exact Or.inr ⟨k', mm', p1', ps1', h1, h2, List.mem_cons_of_mem _ h3, h4⟩
        | seq l =>
          rcases List.mem_cons.mp hit with rfl | hit'
          · exact Or.inl (List.mem_cons_self ..)
          · rcases ih item hit' with h | ⟨k', mm', p1', ps1', h1, h2, h3, h4⟩
            · exact Or.inl (List.mem_cons_of_mem _ h)
            · exact Or.inr ⟨k', mm', p1', ps1', h1, h2, List.mem_cons_of_mem _ h3, h4⟩
    · rw [if_neg hk] at hit
      rcases List.mem_cons.mp hit with rfl | hit'
      · exact Or.inl (List.mem_cons_self ..)
      · rcases ih item hit' with h | ⟨k', mm', p1', ps1', h1, h2, h3, h4⟩
        · exact Or.inl (List.mem_cons_of_mem _ h)
        · exact Or.inr ⟨k', mm', p1', ps1', h1, h2, List.mem_cons_of_mem _ h3, h4⟩

/-- C10: diff filtering prunes map entries only.  `filterYaml` recurses
solely into values that are YAML maps, never into sequences: every output
item is an input item or a map value filtered recursively; and for every
user filter path whose numeric segment addresses an array element (such as
`spec.ports[0].nodePort`), the rendered object is unchanged by that filter
— no element inside a list is ever removed. -/
theorem C10_filterYaml_maps_only :
    (∀ (m : List (Val × Val)) (p : String) (ps : List String),
      ∀ item ∈ filterYaml m p ps, item ∈ m ∨
        ∃ k mm p1 ps1, ps = p1 :: ps1 ∧ keyMatches k p = true ∧
          (k, Val.map mm) ∈ m ∧ item = (k, Val.map (filterYaml mm p1 ps1))) ∧
    (∀ (m : List (Val × Val)) (p : String) (ps : List String),
      SeqAddressed m p ps → filterYaml m p ps = m) :=
  ⟨fun _ _ _ => filterYaml_item_src,
   fun _ _ _ h => filterYaml_seqAddressed_unchanged h⟩

/-- A Service rendering whose `spec.ports` value is an array: the filter
`spec.ports[0].nodePort` splits into segments `spec / ports / 0 /
nodePort` and addresses into that array. -/
def demoSvcYaml : List (Val × Val) :=
  [(Val.str "spec", Val.map
      [(Val.str "ports", Val.seq [Val.map [(Val.str "nodePort", Val.int 31000)]]),
       (Val.str "clusterIP", Val.str "10.0.0.1")])]

/-- Witness for C10: the filter path `spec.ports[0].nodePort` leaves the
demo Service rendering untouched, and its first output item comes from the
input. -/
theorem C10_filterYaml_maps_only_witness :
    filterYaml demoSvcYaml "spec" ["ports", "0", "nodePort"] = demoSvcYaml ∧
    ((Val.str "spec",
      Val.map [(Val.str "ports", Val.seq [Val.map [(Val.str "nodePort", Val.int 31000)]]),
               (Val.str "clusterIP", Val.str "10.0.0.1")]) ∈ demoSvcYaml ∨
      ∃ k mm p1 ps1, (["ports", "0", "nodePort"] : List String) = p1 :: ps1 ∧
        keyMatches k "spec" = true ∧ (k, Val.map mm) ∈ demoSvcYaml ∧
        (Val.str "spec",
          Val.map [(Val.str "ports", Val.seq [Val.map [(Val.str "nodePort", Val.int 31000)]]),
                   (Val.str "clusterIP", Val.str "10.0.0.1")]) =
          (k, Val.map (filterYaml mm p1 ps1))) := by
  have hsa : SeqAddressed demoSvcYaml "spec" ["ports", "0", "nodePort"] := by
    apply SeqAddressed.deeper
    · intro k v hmem hk
      simp only [demoSvcYaml, List.mem_singleton, Prod.mk.injEq] at hmem
      exact ⟨_, hmem.2⟩
    · intro k mm hmem hk
      simp only [demoSvcYaml, List.mem_singleton, Prod.mk.injEq, Val.map.injEq] at hmem
      rw [hmem.2]
      apply SeqAddressed.stop
      · rfl
      · intro k' v' hmem' hk'
        simp at hmem'
        rcases hmem' with ⟨_, hv⟩ | ⟨hk2, _⟩
        · exact ⟨_, hv⟩
        · rw [hk2] at hk'
          simp [keyMatches] at hk'
      · exact ⟨_, List.mem_cons_self ..⟩
  have hunch := C10_filterYaml_maps_only.2 demoSvcYaml "spec" ["ports", "0", "nodePort"] hsa
  refine ⟨hunch, ?_⟩
  have hmem :
      (Val.str "spec",
        Val.map [(Val.str "ports", Val.seq [Val.map [(Val.str "nodePort", Val.int 31000)]]),
                 (Val.str "clusterIP", Val.str "10.0.0.1")]) ∈
        filterYaml demoSvcYaml "spec" ["ports", "0", "nodePort"] := by
    rw [hunch]
    exact List.mem_cons_self ..
  exact C10_filterYaml_maps_only.1 demoSvcYaml "spec" ["ports", "0", "nodePort"] _ hmem

end Yaml

/-! ### Module loader (pkg/loader/loader.go)

`anchoredLoadFn` resolves `load(...)` imports with a cache that doubles as
cycle detector: a `nil` placeholder marks a module whose evaluation is in
progress.  The starlark evaluator itself is an external collaborator; its
behaviour (which `load` statements a module executes, and the resulting
globals/error) is part of the `World` environment, while the cache logic,
extension check, remote-dependency resolution and file reading follow the
Go source. -/

namespace Loader

/-- Model of Go `filepath.Ext`: the suffix beginning at the final dot in
the final slash-separated element; empty when that element has no dot. -/
def extOf (path : String) : String :=
  let rev := path.toList.reverse
  let pre := rev.takeWhile (fun c => c ≠ '/')
  match Kpath.idxOfChar '.' pre with
  | none => ""
  | some i => String.mk ((pre.take (i + 1)).reverse)

/-- Simplified `filepath.Dir`: everything before the final slash, or `.`
when there is none (path cleaning is not modelled; the result only feeds
the abstract file-reading environment). -/
def dirOf (m : String) : String :=
  let rev := m.toList.reverse
  match Kpath.idxOfChar '/' rev with
  | none => "."
  | some i => String.mk ((rev.drop (i + 1)).reverse)

/-- Simplified `filepath.Join` on two components (no cleaning beyond
dropping empty parts and a `.` second component). -/
def joinPath (a b : String) : String :=
  if a = "" then b
  else if b = "" then a
  else if b = "." then a
  else a ++ "/" ++ b

/-- Module globals (`starlark.StringDict`), modelled as an association
list; the scripting runtime itself is out of scope. -/
abbrev Globals := List (String × String)

/-- The `Module` record cached by the loader: globals, raw source bytes,
dependency version, and the evaluation error, if any. -/
structure Module where
  globals : Globals
  data : List Char
  version : String
  err : Option String
deriving DecidableEq, Repr

/-- One slot of the Go map `l.loaded`: absent, present with the `nil`
placeholder (load in progress), or present with an evaluated module. -/
inductive CacheEntry where
  | absent
  | loading
  | done (m : Module)
deriving DecidableEq, Repr

/-- The loader cache `l.loaded`. -/
def Cache : Type := String → CacheEntry

/-- Map update, modelling `l.loaded[module] = ...`. -/
def Cache.set (c : Cache) (k : String) (e : CacheEntry) : Cache :=
  fun q => if q = k then e else c q

theorem Cache.set_same (c : Cache) (k : String) (e : CacheEntry) :
    (c.set k e) k = e := by
  simp [Cache.set]

theorem Cache.set_other (c : Cache) {k q : String} (e : CacheEntry) (h : q ≠ k) :
    (c.set k e) q = c q := by
  simp [Cache.set, h]

/-- A registered remote dependency (`loader.Dependency`): the outcome of
`Fetch`, the local checkout directory, and the version. -/
structure Dep where
  fetchRes : Except String Unit
  localDir : String
  version : String

/-- Environment of the loader: registered dependencies, the file system
(reader factory plus `ReadAll`), and the external starlark evaluator —
the `load` statements a module executes in order, and the globals/error
of its evaluation once all its loads succeeded. -/
structure World where
  deps : String → Option Dep
  read : String → String → Except String (List Char)
  execLoads : String → List Char → List String
  execGlobals : String → List Char → Globals
  execErr : String → List Char → Option String

/-- What Go's `(starlark.StringDict, error)` return of the load function
carries: possibly-nil globals and a possibly-nil error. -/
abbrev LoadRes := Option Globals × Option String

/-- The remote-dependency resolution step of `anchoredLoadFn`: for a module
path starting with `@`, require a `//`, a registered dependency, and a
successful `Fetch`; the base dir becomes the dependency checkout and the
module the path after the double slash. -/
def remoteResolve (w : World) (baseDir module : String) :
    Except String (String × String × String) :=
  if module.toList.head? = some '@' then
    match Kpath.idxOfSub ['/', '/'] module.toList with
    | none => .error "remote module must contain double slash"
    | some idx =>
      let mName := String.mk ((module.toList.drop 1).take (idx - 1))
      match w.deps mName with
      | none => .error ("`" ++ mName ++ "' is not registered")
      | some dep =>
        match dep.fetchRes with
        | .error e => .error ("failed to fetch module `" ++ mName ++ "': " ++ e)
        | .ok _ => .ok (dep.localDir, dep.version, String.mk (module.toList.drop (idx + 2)))
  else .ok (baseDir, "", module)

/-- Model of the closure returned by `anchoredLoadFn`, with fuel bounding
the depth of nested loads.  Mirrors the Go control flow: cache hit returns
the cached globals and error; the `nil` placeholder yields the
"cycle in load graph" error; otherwise the placeholder is installed, then
extension check, remote resolution, file read — each failure returns with
the placeholder still in the cache — and finally the module is executed
(its `load` statements run through this same function) and the cache slot
is replaced by the evaluated module, keyed by the full module path. -/
def loadAux (w : World) : Nat → String → Cache → String → LoadRes × Cache
  | 0, _, cache, _ => ((none, some "out of fuel (model artifact)"), cache)
  | fuel + 1, baseDir, cache, module =>
    match cache module with
    | .done m => ((some m.globals, m.err), cache)
    | .loading => ((none, some "cycle in load graph"), cache)
    | .absent =>
      let cache1 := cache.set module .loading
      if extOf module ≠ ".ipd" ∧ extOf module ≠ ".star" then
        ((none, some ("unknown file extension: " ++ extOf module)), cache1)
      else
        match remoteResolve w baseDir module with
        | .error e => ((none, some e), cache1)
        | .ok (bd, version, mod) =>
          match w.read bd mod with
          | .error e => ((none, some e), cache1)
          | .ok data =>
            let newBaseDir := joinPath bd (dirOf mod)
            let folded := (w.execLoads mod data).foldl
              (fun (acc : Option String × Cache) d =>
                match acc.1 with
                | some _ => acc
                | none =>
                  let step := loadAux w fuel newBaseDir acc.2 d
                  (step.1.2, step.2))
              (none, cache1)
            let res : Globals × Option String :=
              match folded.1 with
              | some e => ([], some e)
              | none => (w.execGlobals mod data, w.execErr mod data)
            let m : Module := ⟨res.1, data, version, res.2⟩
            let cache2 := folded.2.set module (.done m)
            ((some m.globals, m.err), cache2)

/-- The pre-evaluation failure conditions of `anchoredLoadFn`, checked in
source order: unknown file extension; remote module without `//`,
unregistered dependency name, or failed dependency `Fetch`; unreadable
module file.  All of them return before the cache is updated with an
evaluated module. -/
def failsBeforeExec (w : World) (bd p : String) : Bool :=
  if extOf p ≠ ".ipd" ∧ extOf p ≠ ".star" then true
  else
    match remoteResolve w bd p with
    | .error _ => true
    | .ok (bd', _, mod) =>
      match w.read bd' mod with
      | .error _ => true
      | .ok _ => false

theorem loadAux_done {w : World} {fuel : Nat} {bd : String} {cache : Cache}
    {p : String} {m : Module} (h : cache p = .done m) :
    loadAux w (fuel + 1) bd cache p = ((some m.globals, m.err), cache) := by
  simp [loadAux, h]

theorem loadAux_loading {w : World} {fuel : Nat} {bd : String} {cache : Cache}
    {p : String} (h : cache p = .loading) :
    loadAux w (fuel + 1) bd cache p = ((none, some "cycle in load graph"), cache) := by
  simp [loadAux, h]

/-- Characterization of a load that starts from an absent cache slot: it
either fails before evaluation, leaving only the in-progress placeholder
at `p`, or it completes evaluation, stores the evaluated module at `p`,
and returns that module's globals and error. -/
theorem loadAux_absent_spec {w : World} {fuel : Nat} {bd : String}
    {cache : Cache} {p : String} (habs : cache p = .absent) :
    (∃ e, loadAux w (fuel + 1) bd cache p = ((none, some e), cache.set p .loading)) ∨
    (∃ m, (loadAux w (fuel + 1) bd cache p).2 p = .done m ∧
      (loadAux w (fuel + 1) bd cache p).1 = (some m.globals, m.err)) := by
  simp only [loadAux, habs]
  split
  · exact Or.inl ⟨_, rfl⟩
  · split
    · exact Or.inl ⟨_, rfl⟩
    · split
      · exact Or.inl ⟨_, rfl⟩
      · exact Or.inr ⟨_, Cache.set_same .., rfl⟩

/-- A load that fails one of the pre-evaluation checks returns an error
and leaves only the in-progress placeholder at `p`. -/
theorem loadAux_fails_spec {w : World} {fuel : Nat} {bd : String}
    {cache : Cache} {p : String} (habs : cache p = .absent)
    (hfail : failsBeforeExec w bd p = true) :
    ∃ e, loadAux w (fuel + 1) bd cache p = ((none, some e), cache.set p .loading) := by
  unfold failsBeforeExec at hfail
  simp only [loadAux, habs]
  split at hfail
  next hext =>
    rw [if_pos hext]
    exact ⟨_, rfl⟩
  next hext =>
    rw [if_neg hext]
    split at hfail
    · exact ⟨_, rfl⟩
    · split at hfail
      · exact ⟨_, rfl⟩
      · cases hfail

/-- C7: repeated loads return the cached module — once a path has an
evaluated module in the cache its globals AND its error are returned
as-is (the cached error is returned even if the previous evaluation
failed); a load that re-enters a module currently being loaded (the
`nil` placeholder) fails with "cycle in load graph"; and a load that runs
evaluation installs the evaluated module under the full path, so that a
repeated load returns exactly what the completing load returned. -/
theorem C7_loader_repeat_and_cycle :
    (∀ (w : World) (fuel : Nat) (bd : String) (cache : Cache) (p : String) (m : Module),
      cache p = .done m →
      loadAux w (fuel + 1) bd cache p = ((some m.globals, m.err), cache)) ∧
    (∀ (w : World) (fuel : Nat) (bd : String) (cache : Cache) (p : String),
      cache p = .loading →
      loadAux w (fuel + 1) bd cache p = ((none, some "cycle in load graph"), cache)) ∧
    (∀ (w : World) (fuel : Nat) (bd : String) (cache : Cache) (p : String),
      cache p = .absent →
      ∀ m, (loadAux w (fuel + 1) bd cache p).2 p = .done m →
        (loadAux w (fuel + 1) bd cache p).1 = (some m.globals, m.err) ∧
        ∀ (k : Nat) (bd2 : String),
          loadAux w (k + 1) bd2 ((loadAux w (fuel + 1) bd cache p).2) p =
            ((some m.globals, m.err), (loadAux w (fuel + 1) bd cache p).2)) := by
  refine ⟨fun w fuel bd cache p m h => loadAux_done h,
          fun w fuel bd cache p h => loadAux_loading h,
          fun w fuel bd cache p habs m hdone => ?_⟩
  rcases @loadAux_absent_spec w fuel bd _ _ habs with
    ⟨e, heq⟩ | ⟨m0, hd0, hr0⟩
  · have h2 : (cache.set p .loading) p = .done m := by
      rw [heq] at hdone
      exact hdone
    rw [Cache.set_same] at h2
    cases h2
  · have hmm : CacheEntry.done m = CacheEntry.done m0 := by
      rw [← hdone, hd0]
    injection hmm with hmm2
    subst hmm2
    exact ⟨hr0, fun k bd2 => loadAux_done hdone⟩

/-- Demo environment for the loader witnesses: no registered deps, all
files readable with empty content, modules evaluate with no loads, one
global and no error. -/
def demoWorld : World where
  deps := fun _ => none
  read := fun _ _ => .ok []
  execLoads := fun _ _ => []
  execGlobals := fun _ _ => [("install", "fn")]
  execErr := fun _ _ => none

/-- An all-absent cache. -/
def emptyCache : Cache := fun _ => .absent

/-- Witness for C7: a first load of `a.ipd` evaluates and caches the
module; the repeated load returns the cached globals and error, and a
cache with the in-progress placeholder yields the cycle error. -/
theorem C7_loader_repeat_and_cycle_witness :
    (emptyCache "a.ipd" = .absent ∧
      (loadAux demoWorld 1 "" emptyCache "a.ipd").2 "a.ipd" =
        .done ⟨[("install", "fn")], [], "", none⟩ ∧
      (loadAux demoWorld 1 "" emptyCache "a.ipd").1 =
        (some [("install", "fn")], none) ∧
      loadAux demoWorld 1 "x" ((loadAux demoWorld 1 "" emptyCache "a.ipd").2) "a.ipd" =
        ((some [("install", "fn")], none), (loadAux demoWorld 1 "" emptyCache "a.ipd").2)) ∧
    ((emptyCache.set "b.ipd" .loading) "b.ipd" = .loading ∧
      loadAux demoWorld 1 "" (emptyCache.set "b.ipd" .loading) "b.ipd" =
        ((none, some "cycle in load graph"), emptyCache.set "b.ipd" .loading)) := by
  have habs : emptyCache "a.ipd" = .absent := rfl
  have hdone : (loadAux demoWorld 1 "" emptyCache "a.ipd").2 "a.ipd" =
      .done ⟨[("install", "fn")], [], "", none⟩ := by
    rfl
  have hmain := C7_loader_repeat_and_cycle.2.2 demoWorld 0 "" emptyCache "a.ipd" habs
    ⟨[("install", "fn")], [], "", none⟩ hdone
  have hload : (emptyCache.set "b.ipd" .loading) "b.ipd" = .loading :=
    Cache.set_same ..
  exact ⟨⟨habs, hdone, hmain.1, hmain.2 0 "x"⟩,
         ⟨hload, C7_loader_repeat_and_cycle.2.1 demoWorld 0 "" _ "b.ipd" hload⟩⟩

/-- C9: when a load fails before the cache is updated with an evaluated
module — unknown file extension, remote module without a double slash,
unregistered dependency, failed dependency fetch, or unreadable file —
the first load returns that error, the in-progress `nil` placeholder
remains in the cache, and every subsequent load of the same path returns
"cycle in load graph" instead of the original failure. -/
theorem C9_loader_poisoned_cache (w : World) (fuel : Nat) (bd : String)
    (cache : Cache) (p : String) (habs : cache p = .absent)
    (hfail : failsBeforeExec w bd p = true) :
    (∃ e, (loadAux w (fuel + 1) bd cache p).1 = (none, some e)) ∧
    (loadAux w (fuel + 1) bd cache p).2 p = .loading ∧
    ∀ (k : Nat) (bd' : String),
      loadAux w (k + 1) bd' ((loadAux w (fuel + 1) bd cache p).2) p =
        ((none, some "cycle in load graph"), (loadAux w (fuel + 1) bd cache p).2) := by
  obtain ⟨e, heq⟩ := @loadAux_fails_spec _ fuel _ _ _ habs hfail
  rw [heq]
  exact ⟨⟨e, rfl⟩, Cache.set_same ..,
    fun k bd' => loadAux_loading (Cache.set_same ..)⟩

/-- Witness for C9: loading `m.txt` (unknown extension) errors, leaves the
placeholder, and poisons later loads with the cycle error. -/
theorem C9_loader_poisoned_cache_witness :
    (emptyCache "m.txt" = .absent ∧ failsBeforeExec demoWorld "" "m.txt" = true) ∧
    ((∃ e, (loadAux demoWorld 1 "" emptyCache "m.txt").1 = (none, some e)) ∧
      (loadAux demoWorld 1 "" emptyCache "m.txt").2 "m.txt" = .loading ∧
      ∀ (k : Nat) (bd' : String),
        loadAux demoWorld (k + 1) bd' ((loadAux demoWorld 1 "" emptyCache "m.txt").2) "m.txt" =
          ((none, some "cycle in load graph"), (loadAux demoWorld 1 "" emptyCache "m.txt").2)) :=
  ⟨⟨rfl, by decide⟩,
   C9_loader_poisoned_cache demoWorld 0 "" emptyCache "m.txt" rfl (by decide)⟩

end Loader

/-! ### Kube apply engine (pkg/kube)

`kubeUpdate` reconciles one object: probe with GET, merge/immutability
policy via `maybeRecreate`/`mergeObjects`, then PUT or POST; `kubeDelete`
deletes through the dynamic client; `kubeUpdateYaml` is the dynamic-client
counterpart used by `put_yaml`.  Request bodies (protobuf/JSON encoding)
and diff rendering are not modelled; the HTTP requests issued, in order,
are. -/

namespace Kube

/-- `schema.GroupVersionKind`. -/
structure GVK where
  group : String
  version : String
  kind : String
deriving DecidableEq, Repr

/-- Model of apimachinery `GroupVersionKind.String()`:
`group "/" version ", Kind=" kind`. -/
def GVK.render (g : GVK) : String :=
  g.group ++ "/" ++ g.version ++ ", Kind=" ++ g.kind

/-- The `apiResource` struct of pkg/kube: resolved resource identity. -/
structure ApiResource where
  gvk : GVK
  name : String
  ns : String
  clusterScoped : Bool
  resource : String
  subresource : String
deriving DecidableEq, Repr

/-- Go `path.Join` over the segment list (the segments contain no internal
slashes apart from the leading one, so no cleaning is required). -/
def joinSegments (segs : List String) : String :=
  String.intercalate "/" segs

/-- Model of `apiResource.resourceSegments`: core group uses `/api/<ver>`,
named groups `/apis/<group>/<ver>`; `namespaces/<ns>` when namespaced and
not cluster-scoped; the resource plural unless empty (namespaces). -/
def ApiResource.resourceSegments (r : ApiResource) : List String :=
  let segments :=
    if r.gvk.group = "" then ["/api", r.gvk.version]
    else ["/apis", r.gvk.group, r.gvk.version]
  let segments :=
    if r.ns ≠ "" ∧ r.clusterScoped = false then segments ++ ["namespaces", r.ns]
    else segments
  if r.resource ≠ "" then segments ++ [r.resource] else segments

/-- Model of `apiResource.Path()`: the collection URI. -/
def ApiResource.path (r : ApiResource) : String :=
  joinSegments r.resourceSegments

/-- Model of `apiResource.PathWithName()`: the name URI. -/
def ApiResource.pathWithName (r : ApiResource) : String :=
  if r.name ≠ "" then r.path ++ "/" ++ r.name else r.path

/-- Model of `apiResource.PathWithSubresource()`. -/
def ApiResource.pathWithSubresource (r : ApiResource) : String :=
  if r.subresource ≠ "" then r.pathWithName ++ "/" ++ r.subresource
  else r.pathWithName

/-- `metav1.ObjectMeta`, restricted to the fields the engine touches. -/
structure ObjMeta where
  name : String
  ns : String
  resourceVersion : String
deriving DecidableEq, Repr

/-- The `corev1.ServiceSpec` fields inspected by `mergeObjects`. -/
structure ServiceSpec where
  clusterIP : String
  healthCheckNodePort : Int
deriving DecidableEq, Repr

/-- `rbacv1.RoleRef`. -/
structure RoleRef where
  apiGroup : String
  kind : String
  name : String
deriving DecidableEq, Repr

/-- The typed Kubernetes objects the merge policy distinguishes: Services
and ClusterRoleBindings are special-cased, every other kind behaves
uniformly.  `typeMeta` is the object's GroupVersionKind, used in the
immutable-update error message. -/
inductive KObj where
  | service (typeMeta : GVK) (meta : ObjMeta) (spec : ServiceSpec)
  | clusterRoleBinding (typeMeta : GVK) (meta : ObjMeta) (roleRef : RoleRef)
  | other (typeMeta : GVK) (meta : ObjMeta)
deriving DecidableEq, Repr

def KObj.meta : KObj → ObjMeta
  | .service _ m _ => m
  | .clusterRoleBinding _ m _ => m
  | .other _ m => m

def KObj.typeMeta : KObj → GVK
  | .service g _ _ => g
  | .clusterRoleBinding g _ _ => g
  | .other g _ => g

/-- `metav1.Object.SetResourceVersion`. -/
def KObj.setResourceVersion : KObj → String → KObj
  | .service g m s, rv => .service g { m with resourceVersion := rv } s
  | .clusterRoleBinding g m ref, rv => .clusterRoleBinding g { m with resourceVersion := rv } ref
  | .other g m, rv => .other g { m with resourceVersion := rv }

/-- The text of `ErrUpdateImmutable`. -/
def errUpdateImmutableMsg : String :=
  "cannot update immutable. Use -force to delete and recreate"

/-- Model of `ErrImmutableRessource(attribute, obj)`: the `%w`-wrapped
message `failed to update <attr> of resource <gvk>: <ErrUpdateImmutable>`. -/
def errImmutableRessource (attr : String) (obj : KObj) : String :=
  "failed to update " ++ attr ++ " of resource " ++ obj.typeMeta.render ++
    ": " ++ errUpdateImmutableMsg

/-- The Service block of `mergeObjects`: `clusterIP` is re-set to the
controller-provided live value; a desired `healthCheckNodePort` that is
non-zero, different from a non-zero live port, is immutable; otherwise the
live port is kept.  A live Service paired with a desired object of a
different type panics in Go on the type assertion; the model returns a
distinguished error for that unreachable pairing.  A non-Service live
object leaves the desired object untouched. -/
def mergeService (live obj : KObj) : Except String KObj :=
  match live, obj with
  | .service _ _ lspec, .service ogvk ometa ospec =>
    let ospec1 := { ospec with clusterIP := lspec.clusterIP }
    if ospec1.healthCheckNodePort ≠ 0 ∧ lspec.healthCheckNodePort ≠ 0 ∧
        ospec1.healthCheckNodePort ≠ lspec.healthCheckNodePort then
      .error (errImmutableRessource ".spec.healthCheckNodePort" (.service ogvk ometa ospec1))
    else
      .ok (.service ogvk ometa { ospec1 with healthCheckNodePort := lspec.healthCheckNodePort })
  | .service _ _ _, _ => .error "panic: obj is not a *corev1.Service"
  | _, o => .ok o

/-- The ClusterRoleBinding block of `mergeObjects`: any difference in
`roleRef.apiGroup`, `roleRef.kind` or `roleRef.name` from live is
immutable. -/
def mergeClusterRoleBinding (live obj : KObj) : Except String KObj :=
  match live, obj with
  | .clusterRoleBinding _ _ lref, .clusterRoleBinding ogvk ometa oref =>
    if lref.apiGroup ≠ oref.apiGroup ∨ lref.kind ≠ oref.kind ∨ lref.name ≠ oref.name then
      .error (errImmutableRessource "roleRef" (.clusterRoleBinding ogvk ometa oref))
    else .ok (.clusterRoleBinding ogvk ometa oref)
  | .clusterRoleBinding _ _ _, _ => .error "panic: obj is not a *rbacv1.ClusterRoleBinding"
  | _, o => .ok o

/-- Model of `mergeObjects(live, obj)`: Service block, ClusterRoleBinding
block, then `.metadata.resourceVersion` is copied from live when present.
Go mutates `obj` in place and returns only an error; the model returns
the updated object.  Every error it produces is an `ErrImmutableRessource`
wrap of `ErrUpdateImmutable` (the only error source in the function),
which is what `maybeRecreate` detects with
`errors.Is(errors.Unwrap(err), ErrUpdateImmutable)`. -/
def mergeObjects (live obj : KObj) : Except String KObj :=
  match mergeService live obj with
  | .error e => .error e
  | .ok obj1 =>
    match mergeClusterRoleBinding live obj1 with
    | .error e => .error e
    | .ok obj2 =>
      -- metadata.resourceVersion is required by the API for updates
      let gotRV := live.meta.resourceVersion
      if gotRV ≠ "" then .ok (obj2.setResourceVersion gotRV) else .ok obj2

/-- One HTTP request as observed by the API server. -/
inductive HttpReq where
  | get (url : String)
  | put (url : String)
  | post (url : String)
  | del (url : String) (foreground : Bool)
deriving DecidableEq, Repr

def HttpReq.isWrite : HttpReq → Bool
  | .get _ => false
  | _ => true

/-- The `kubePackage` flags relevant to reconciliation. -/
structure KubePkg where
  master : String
  dryRun : Bool
  force : Bool
  diff : Bool
deriving DecidableEq, Repr

/-- The API server as seen by one reconciliation: outcome of the
existence probe (`kubePeek`) by URL, outcome of a write request, and
outcome of a dynamic-client delete.  Request and response bodies are not
modelled. -/
structure ApiServer where
  peek : String → Except String (Option KObj)
  writeRes : HttpReq → Except String Unit
  deleteRes : ApiResource → Bool → Except String Unit

/-- Model of `kubeDelete`: dynamic-client delete with Background (default)
or Foreground propagation; in dry-run mode the function returns before
issuing the delete. -/
def kubeDelete (m : KubePkg) (srv : ApiServer) (r : ApiResource) (foreground : Bool) :
    Except String Unit × List HttpReq :=
  if m.dryRun then (.ok (), [])
  else
    match srv.deleteRes r foreground with
    | .error e => (.error e, [.del (m.master ++ r.pathWithName) foreground])
    | .ok _ => (.ok (), [.del (m.master ++ r.pathWithName) foreground])

/-- Model of `maybeRecreate`: merge live into desired; on an immutable
merge error with the force flag set, delete the live object with
foreground propagation (dry run merely prints a warning and simulates the
delete inside `kubeDelete`) and continue; without force the error is
propagated and nothing is deleted. -/
def maybeRecreate (m : KubePkg) (srv : ApiServer) (live obj : KObj) (r : ApiResource) :
    Except String Unit × List HttpReq :=
  match mergeObjects live obj with
  | .error e =>
    if m.force then kubeDelete m srv r true
    else (.error e, [])
  | .ok _ => (.ok (), [])

/-- Model of `kubeUpdate`: probe with GET on `PathWithName`; when found,
the URI becomes `PathWithSubresource` and the merge/recreate policy runs;
when not found, a subresource write fails with
"parent resource does not exist" and otherwise the method becomes POST on
the collection `Path`.  In diff mode the diff is printed (no request); in
dry-run mode the function returns after rendering the diff and before
sending; otherwise the single PUT/POST is sent.  Returns the result and
the HTTP requests issued, in order. -/
def kubeUpdate (m : KubePkg) (srv : ApiServer) (r : ApiResource) (msg : KObj) :
    Except String Unit × List HttpReq :=
  let probeReq := HttpReq.get (m.master ++ r.pathWithName)
  match srv.peek (m.master ++ r.pathWithName) with
  | .error e => (.error e, [probeReq])
  | .ok probe =>
    let afterDispatch : Except String (Bool × String) × List HttpReq :=
      match probe with
      | some live =>
        -- found: method stays PUT, uri reset for a possible subresource
        let step := maybeRecreate m srv live msg r
        match step.1 with
        | .error e => (.error e, step.2)
        | .ok _ => (.ok (true, r.pathWithSubresource), step.2)
      | none =>
        if r.subresource ≠ "" then (.error "parent resource does not exist", [])
        else (.ok (false, r.path), [])
    match afterDispatch with
    | (.error e, reqs) => (.error e, probeReq :: reqs)
    | (.ok (isPut, uri), reqs) =>
      if m.dryRun then (.ok (), probeReq :: reqs)
      else
        let req := if isPut then HttpReq.put (m.master ++ uri)
                   else HttpReq.post (m.master ++ uri)
        match srv.writeRes req with
        | .error e => (.error e, probeReq :: reqs ++ [req])
        | .ok _ => (.ok (), probeReq :: reqs ++ [req])

/-- Model of `kubeUpdateYaml` (pkg/kube/kube_yaml.go): probe, merge when
found, and in dry-run mode return after rendering the diff and before the
dynamic-client call (Update when found is recorded as a PUT to the name
URL, Create as a POST to the collection URL). -/
def kubeUpdateYaml (m : KubePkg) (srv : ApiServer) (r : ApiResource) (obj : KObj) :
    Except String Unit × List HttpReq :=
  let probeReq := HttpReq.get (m.master ++ r.pathWithName)
  match srv.peek (m.master ++ r.pathWithName) with
  | .error e => (.error e, [probeReq])
  | .ok probe =>
    let merged : Except String Unit :=
      match probe with
      | some live => (mergeObjects live obj).map fun _ => ()
      | none => .ok ()
    match merged with
    | .error e => (.error e, [probeReq])
    | .ok _ =>
      if m.dryRun then (.ok (), [probeReq])
      else
        let req :=
          match probe with
          | some _ => HttpReq.put (m.master ++ r.pathWithName)
          | none => HttpReq.post (m.master ++ r.path)
        match srv.writeRes req with
        | .error e => (.error e, [probeReq, req])
        | .ok _ => (.ok (), [probeReq, req])

/-- The HTTP activity of `kubeGet`/`kubeExists`: one `kubePeek` GET per
probe; the wait loop repeats the same GET and never writes. -/
def kubeGetReqs (m : KubePkg) (r : ApiResource) (probes : Nat) : List HttpReq :=
  List.replicate probes (.get (m.master ++ r.pathWithName))

/-- One kube builtin invocation, as far as its HTTP activity goes. -/
inductive KubeOp where
  | put (r : ApiResource) (msg : KObj)
  | putYaml (r : ApiResource) (obj : KObj)
  | del (r : ApiResource) (foreground : Bool)
  | get (r : ApiResource) (probes : Nat)

def runOp (m : KubePkg) (srv : ApiServer) : KubeOp → Except String Unit × List HttpReq
  | .put r msg => kubeUpdate m srv r msg
  | .putYaml r obj => kubeUpdateYaml m srv r obj
  | .del r fg => kubeDelete m srv r fg
  | .get r n => (.ok (), kubeGetReqs m r n)

/-- A script's sequence of kube builtin invocations, stopped at the first
failing builtin (an addon aborts on the first error), together with the
concatenated HTTP trace. -/
def runScript (m : KubePkg) (srv : ApiServer) : List KubeOp → Except String Unit × List HttpReq
  | [] => (.ok (), [])
  | op :: ops =>
    let step := runOp m srv op
    match step.1 with
    | .error e => (.error e, step.2)
    | .ok _ =>
      let rest := runScript m srv ops
      (rest.1, step.2 ++ rest.2)

end Kube

namespace Kube

/-- C3: the merge step for a found live object: on success the desired
object's `.metadata.resourceVersion` is set to the live object's value
whenever the live value is non-empty; for a Service, `spec.clusterIP` and
`spec.healthCheckNodePort` are taken from live (in particular copied when
the desired port is 0), while desired and live ports both non-zero and
different yield an immutable-update error naming
`.spec.healthCheckNodePort`; for a ClusterRoleBinding, any difference in
`roleRef.apiGroup`, `roleRef.kind` or `roleRef.name` yields an
immutable-update error naming `roleRef`. -/
theorem C3_merge_objects :
    (∀ live obj merged, mergeObjects live obj = .ok merged →
      live.meta.resourceVersion ≠ "" →
      merged.meta.resourceVersion = live.meta.resourceVersion) ∧
    (∀ (lg : GVK) (lm : ObjMeta) (ls : ServiceSpec) (og : GVK) (om : ObjMeta)
        (os : ServiceSpec),
      ¬(os.healthCheckNodePort ≠ 0 ∧ ls.healthCheckNodePort ≠ 0 ∧
        os.healthCheckNodePort ≠ ls.healthCheckNodePort) →
      mergeObjects (.service lg lm ls) (.service og om os) =
        .ok (.service og
          (if lm.resourceVersion ≠ "" then { om with resourceVersion := lm.resourceVersion }
           else om)
          ⟨ls.clusterIP, ls.healthCheckNodePort⟩)) ∧
    (∀ (lg : GVK) (lm : ObjMeta) (ls : ServiceSpec) (og : GVK) (om : ObjMeta)
        (os : ServiceSpec),
      os.healthCheckNodePort ≠ 0 → ls.healthCheckNodePort ≠ 0 →
      os.healthCheckNodePort ≠ ls.healthCheckNodePort →
      mergeObjects (.service lg lm ls) (.service og om os) =
        .error (errImmutableRessource ".spec.healthCheckNodePort"
          (.service og om { os with clusterIP := ls.clusterIP }))) ∧
    (∀ (lg : GVK) (lm : ObjMeta) (lref : RoleRef) (og : GVK) (om : ObjMeta)
        (oref : RoleRef),
      lref.apiGroup ≠ oref.apiGroup ∨ lref.kind ≠ oref.kind ∨ lref.name ≠ oref.name →
      mergeObjects (.clusterRoleBinding lg lm lref) (.clusterRoleBinding og om oref) =
        .error (errImmutableRessource "roleRef" (.clusterRoleBinding og om oref))) := by
  have setRV_rv : ∀ (o : KObj) (rv : String),
      (o.setResourceVersion rv).meta.resourceVersion = rv := by
    intro o rv
    cases o <;> simp [KObj.setResourceVersion, KObj.meta]
  refine ⟨?rv, ?svcOk, ?svcErr, ?crbErr⟩
  case rv =>
    intro live obj merged h hrv
    unfold mergeObjects at h
    split at h
    · cases h
    next obj1 heq1 =>
      split at h
      · cases h
      next obj2 heq2 =>
        have h2 : (if live.meta.resourceVersion ≠ "" then
              Except.ok (obj2.setResourceVersion live.meta.resourceVersion)
            else Except.ok obj2) = Except.ok merged := h
        rw [if_pos hrv] at h2
        cases h2
        exact setRV_rv ..
  case svcOk =>
    intro lg lm ls og om os hnot
    unfold mergeObjects mergeService mergeClusterRoleBinding
    simp only
    rw [if_neg ?hngoal]
    case hngoal =>
      simpa using hnot
    simp only [KObj.meta]
    by_cases hrv : lm.resourceVersion ≠ ""
    · rw [if_pos hrv, if_pos hrv]
      rfl
    · rw [if_neg hrv, if_neg hrv]
  case svcErr =>
    intro lg lm ls og om os h1 h2 h3
    unfold mergeObjects mergeService
    simp only
    rw [if_pos ⟨h1, h2, h3⟩]
  case crbErr =>
    intro lg lm lref og om oref hdiff
    unfold mergeObjects mergeService mergeClusterRoleBinding
    simp only
    rw [if_pos hdiff]

end Kube

namespace Kube

theorem kubeUpdate_notFound_post {m : KubePkg} {srv : ApiServer} {r : ApiResource} {msg : KObj}
    (hdry : m.dryRun = false)
    (hpeek : srv.peek (m.master ++ r.pathWithName) = .ok none)
    (hsub : r.subresource = "") :
    (kubeUpdate m srv r msg).2 =
      [.get (m.master ++ r.pathWithName), .post (m.master ++ r.path)] := by
  unfold kubeUpdate
  rw [hpeek]
  simp only [hsub, hdry, ne_eq, not_true_eq_false, if_false, Bool.false_eq_true, ite_false]
  cases hw : srv.writeRes (.post (m.master ++ r.path)) <;> simp [hw]

theorem kubeUpdate_found_put {m : KubePkg} {srv : ApiServer} {r : ApiResource}
    {msg live merged : KObj}
    (hdry : m.dryRun = false)
    (hpeek : srv.peek (m.master ++ r.pathWithName) = .ok (some live))
    (hmerge : mergeObjects live msg = .ok merged) :
    (kubeUpdate m srv r msg).2 =
      [.get (m.master ++ r.pathWithName), .put (m.master ++ r.pathWithSubresource)] := by
  unfold kubeUpdate maybeRecreate
  rw [hpeek]
  dsimp only
  rw [hmerge]
  simp only [hdry, Bool.false_eq_true, ite_false]
  cases hw : srv.writeRes (.put (m.master ++ r.pathWithSubresource)) <;> simp [hw]

theorem kubeUpdate_orphan_subresource {m : KubePkg} {srv : ApiServer} {r : ApiResource}
    {msg : KObj}
    (hpeek : srv.peek (m.master ++ r.pathWithName) = .ok none)
    (hsub : r.subresource ≠ "") :
    kubeUpdate m srv r msg =
      (.error "parent resource does not exist", [.get (m.master ++ r.pathWithName)]) := by
  unfold kubeUpdate
  rw [hpeek]
  simp [hsub]

/-- C1: create-vs-update dispatch of `kube.put`.  If the probe GET returns
404 (and no subresource is requested), the write is a POST to the
collection URI `Path()`; if the probe finds the object, the write is a PUT
to `PathWithSubresource()`, which equals the name URI when no subresource
is set and the name/subresource URI otherwise; and a put with a non-empty
subresource whose parent does not exist fails with
"parent resource does not exist" without sending any write. -/
theorem C1_put_dispatch :
    (∀ (m : KubePkg) (srv : ApiServer) (r : ApiResource) (msg : KObj),
      m.dryRun = false →
      srv.peek (m.master ++ r.pathWithName) = .ok none →
      r.subresource = "" →
      (kubeUpdate m srv r msg).2 =
        [.get (m.master ++ r.pathWithName), .post (m.master ++ r.path)]) ∧
    (∀ (m : KubePkg) (srv : ApiServer) (r : ApiResource) (msg live merged : KObj),
      m.dryRun = false →
      srv.peek (m.master ++ r.pathWithName) = .ok (some live) →
      mergeObjects live msg = .ok merged →
      (kubeUpdate m srv r msg).2 =
        [.get (m.master ++ r.pathWithName), .put (m.master ++ r.pathWithSubresource)]) ∧
    (∀ r : ApiResource, r.subresource = "" → r.pathWithSubresource = r.pathWithName) ∧
    (∀ (m : KubePkg) (srv : ApiServer) (r : ApiResource) (msg : KObj),
      srv.peek (m.master ++ r.pathWithName) = .ok none →
      r.subresource ≠ "" →
      kubeUpdate m srv r msg =
        (.error "parent resource does not exist", [.get (m.master ++ r.pathWithName)])) := by
  refine ⟨fun m srv r msg => kubeUpdate_notFound_post,
          fun m srv r msg live merged => kubeUpdate_found_put,
          fun r hsub => ?_,
          fun m srv r msg => kubeUpdate_orphan_subresource⟩
  unfold ApiResource.pathWithSubresource
  simp [hsub]

/-- Concrete fixtures for the witnesses and the C2 counterexample. -/
def svcGVKc : GVK := ⟨"", "v1", "Service"⟩

def crbGVKc : GVK := ⟨"rbac.authorization.k8s.io", "v1", "ClusterRoleBinding"⟩

def svcRes : ApiResource := ⟨svcGVKc, "foo", "bar", false, "services", ""⟩

def svcStatusRes : ApiResource := ⟨svcGVKc, "foo", "bar", false, "services", "status"⟩

def liveSvc : KObj := .service svcGVKc ⟨"foo", "bar", "42"⟩ ⟨"10.0.0.1", 41⟩

def headSvc : KObj := .service svcGVKc ⟨"foo", "bar", ""⟩ ⟨"", 0⟩

def headSvcBad : KObj := .service svcGVKc ⟨"foo", "bar", ""⟩ ⟨"", 42⟩

def plainPkg : KubePkg := ⟨"", false, false, false⟩

def forcePkg : KubePkg := ⟨"", false, true, false⟩

def dryForcePkg : KubePkg := ⟨"", true, true, false⟩

def dryPkg : KubePkg := ⟨"", true, false, false⟩

def notFoundSrv : ApiServer := ⟨fun _ => .ok none, fun _ => .ok (), fun _ _ => .ok ()⟩

def foundSrv : ApiServer := ⟨fun _ => .ok (some liveSvc), fun _ => .ok (), fun _ _ => .ok ()⟩

/-- Witness for C1: a 404 probe yields POST to the collection, a found
probe yields PUT to the name URI, and a subresource put without a parent
fails with no write. -/
theorem C1_put_dispatch_witness :
    ((kubeUpdate plainPkg notFoundSrv svcRes headSvc).2 =
      [.get (plainPkg.master ++ svcRes.pathWithName),
       .post (plainPkg.master ++ svcRes.path)]) ∧
    ((kubeUpdate plainPkg foundSrv svcRes headSvc).2 =
      [.get (plainPkg.master ++ svcRes.pathWithName),
       .put (plainPkg.master ++ svcRes.pathWithSubresource)]) ∧
    svcRes.pathWithSubresource = svcRes.pathWithName ∧
    (kubeUpdate plainPkg notFoundSrv svcStatusRes headSvc =
      (.error "parent resource does not exist",
       [.get (plainPkg.master ++ svcStatusRes.pathWithName)])) :=
  ⟨C1_put_dispatch.1 plainPkg notFoundSrv svcRes headSvc rfl rfl rfl,
   C1_put_dispatch.2.1 plainPkg foundSrv svcRes headSvc liveSvc
     (.service svcGVKc ⟨"foo", "bar", "42"⟩ ⟨"10.0.0.1", 41⟩) rfl rfl rfl,
   C1_put_dispatch.2.2.1 svcRes rfl,
   C1_put_dispatch.2.2.2 plainPkg notFoundSrv svcStatusRes headSvc rfl (by decide)⟩

/-- Counterexample for C2 as stated: with force set, a found Service whose
desired `healthCheckNodePort` (42) conflicts with live (41) is deleted
with foreground propagation, but the write that follows is a PUT to the
name URI — no POST to the collection URI is ever sent. -/
theorem C2_force_recreate_counterexample :
    (kubeUpdate forcePkg foundSrv svcRes headSvcBad).2 =
      [.get "/api/v1/namespaces/bar/services/foo",
       .del "/api/v1/namespaces/bar/services/foo" true,
       .put "/api/v1/namespaces/bar/services/foo"] ∧
    HttpReq.post (forcePkg.master ++ svcRes.path) ∉
      (kubeUpdate forcePkg foundSrv svcRes headSvcBad).2 := by
  constructor
  · rfl
  · decide

theorem kubeUpdate_force_recreate {m : KubePkg} {srv : ApiServer} {r : ApiResource}
    {msg live : KObj} {e : String}
    (hforce : m.force = true) (hdry : m.dryRun = false)
    (hpeek : srv.peek (m.master ++ r.pathWithName) = .ok (some live))
    (hmerge : mergeObjects live msg = .error e)
    (hdel : srv.deleteRes r true = .ok ()) :
    (kubeUpdate m srv r msg).2 =
      [.get (m.master ++ r.pathWithName),
       .del (m.master ++ r.pathWithName) true,
       .put (m.master ++ r.pathWithSubresource)] := by
  unfold kubeUpdate maybeRecreate kubeDelete
  rw [hpeek]
  dsimp only
  rw [hmerge, hdel]
  simp only [hforce, hdry, Bool.false_eq_true, ite_false, if_true]
  cases hw : srv.writeRes (.put (m.master ++ r.pathWithSubresource)) <;> simp [hw]

theorem kubeUpdate_force_recreate_dry {m : KubePkg} {srv : ApiServer} {r : ApiResource}
    {msg live : KObj} {e : String}
    (hforce : m.force = true) (hdry : m.dryRun = true)
    (hpeek : srv.peek (m.master ++ r.pathWithName) = .ok (some live))
    (hmerge : mergeObjects live msg = .error e) :
    kubeUpdate m srv r msg = (.ok (), [.get (m.master ++ r.pathWithName)]) := by
  unfold kubeUpdate maybeRecreate kubeDelete
  rw [hpeek]
  dsimp only
  rw [hmerge]
  simp [hforce, hdry]

/-- C2 (amended): with the merge step reporting an immutable change and
force set, the engine deletes the live object with foreground propagation
and then sends the write as a PUT to the name(/subresource) URI — the
method is never reset to POST; in dry-run mode the delete is simulated
only (no DELETE is sent) and nothing is written. -/
theorem C2_force_recreate_amended :
    (∀ (m : KubePkg) (srv : ApiServer) (r : ApiResource) (msg live : KObj) (e : String),
      m.force = true → m.dryRun = false →
      srv.peek (m.master ++ r.pathWithName) = .ok (some live) →
      mergeObjects live msg = .error e →
      srv.deleteRes r true = .ok () →
      (kubeUpdate m srv r msg).2 =
        [.get (m.master ++ r.pathWithName),
         .del (m.master ++ r.pathWithName) true,
         .put (m.master ++ r.pathWithSubresource)]) ∧
    (∀ (m : KubePkg) (srv : ApiServer) (r : ApiResource) (msg live : KObj) (e : String),
      m.force = true → m.dryRun = true →
      srv.peek (m.master ++ r.pathWithName) = .ok (some live) →
      mergeObjects live msg = .error e →
      kubeUpdate m srv r msg = (.ok (), [.get (m.master ++ r.pathWithName)])) :=
  ⟨fun m srv r msg live e => kubeUpdate_force_recreate,
   fun m srv r msg live e => kubeUpdate_force_recreate_dry⟩

/-- Witness for the amended C2, at the counterexample's own input. -/
theorem C2_force_recreate_amended_witness :
    ((kubeUpdate forcePkg foundSrv svcRes headSvcBad).2 =
      [.get (forcePkg.master ++ svcRes.pathWithName),
       .del (forcePkg.master ++ svcRes.pathWithName) true,
       .put (forcePkg.master ++ svcRes.pathWithSubresource)]) ∧
    (kubeUpdate dryForcePkg foundSrv svcRes headSvcBad =
      (.ok (), [.get (dryForcePkg.master ++ svcRes.pathWithName)])) :=
  ⟨C2_force_recreate_amended.1 forcePkg foundSrv svcRes headSvcBad liveSvc
      (errImmutableRessource ".spec.healthCheckNodePort"
        (.service svcGVKc ⟨"foo", "bar", ""⟩ ⟨"10.0.0.1", 42⟩))
      rfl rfl rfl rfl rfl,
   C2_force_recreate_amended.2 dryForcePkg foundSrv svcRes headSvcBad liveSvc
      (errImmutableRessource ".spec.healthCheckNodePort"
        (.service svcGVKc ⟨"foo", "bar", ""⟩ ⟨"10.0.0.1", 42⟩))
      rfl rfl rfl rfl⟩

end Kube

namespace Kube

theorem kubeUpdate_dryRun_trace {m : KubePkg} {srv : ApiServer} {r : ApiResource}
    {msg : KObj} (hdry : m.dryRun = true) :
    (kubeUpdate m srv r msg).2 = [.get (m.master ++ r.pathWithName)] := by
  unfold kubeUpdate maybeRecreate kubeDelete
  cases hpeek : srv.peek (m.master ++ r.pathWithName) with
  | error e => rfl
  | ok probe =>
    cases probe with
    | none =>
      by_cases hs : r.subresource ≠ ""
      · simp [hs, hdry]
      · simp [hs, hdry]
    | some live =>
      cases hm : mergeObjects live msg with
      | ok o => simp [hm, hdry]
      | error e =>
        by_cases hf : m.force = true
        · simp [hm, hf, hdry]
        · simp [hm, hf, hdry]

theorem kubeDelete_dryRun_trace {m : KubePkg} {srv : ApiServer} {r : ApiResource}
    {fg : Bool} (hdry : m.dryRun = true) :
    kubeDelete m srv r fg = (.ok (), []) := by
  unfold kubeDelete
  simp [hdry]

theorem kubeUpdateYaml_dryRun_trace {m : KubePkg} {srv : ApiServer} {r : ApiResource}
    {obj : KObj} (hdry : m.dryRun = true) :
    (kubeUpdateYaml m srv r obj).2 = [.get (m.master ++ r.pathWithName)] := by
  unfold kubeUpdateYaml
  cases hpeek : srv.peek (m.master ++ r.pathWithName) with
  | error e => rfl
  | ok probe =>
    cases probe with
    | none => simp [hdry]
    | some live =>
      cases hm : mergeObjects live obj with
      | ok o => simp [hm, hdry, Except.map]
      | error e => simp [hm, hdry, Except.map]

/-- C4: under dry run, no POST, PUT or DELETE is ever sent for any
sequence of kube builtin invocations: `kubeUpdate` returns after the diff
with only its probe GET issued, `kubeDelete` returns before invoking the
dynamic-client delete, `kubeUpdateYaml` likewise only probes, and every
request of a whole script trace is a read-only GET. -/
theorem C4_dry_run_no_writes :
    (∀ (m : KubePkg) (srv : ApiServer) (r : ApiResource) (msg : KObj),
      m.dryRun = true →
      (kubeUpdate m srv r msg).2 = [.get (m.master ++ r.pathWithName)]) ∧
    (∀ (m : KubePkg) (srv : ApiServer) (r : ApiResource) (fg : Bool),
      m.dryRun = true → kubeDelete m srv r fg = (.ok (), [])) ∧
    (∀ (m : KubePkg) (srv : ApiServer) (r : ApiResource) (obj : KObj),
      m.dryRun = true →
      (kubeUpdateYaml m srv r obj).2 = [.get (m.master ++ r.pathWithName)]) ∧
    (∀ (m : KubePkg) (srv : ApiServer) (ops : List KubeOp),
      m.dryRun = true →
      ∀ q ∈ (runScript m srv ops).2, q.isWrite = false) := by
  refine ⟨fun m srv r msg => kubeUpdate_dryRun_trace,
          fun m srv r fg => kubeDelete_dryRun_trace,
          fun m srv r obj => kubeUpdateYaml_dryRun_trace,
          fun m srv ops hdry => ?_⟩
  induction ops with
  | nil =>
    intro q hq
    cases hq
  | cons op rest ih =>
    intro q hq
    have hop : ∀ q2 ∈ (runOp m srv op).2, q2.isWrite = false := by
      intro q2 hq2
      cases op with
      | put r msg =>
        rw [show (runOp m srv (.put r msg)).2 = (kubeUpdate m srv r msg).2 from rfl,
          kubeUpdate_dryRun_trace hdry] at hq2
        rcases List.mem_singleton.mp hq2 with rfl
        rfl
      | putYaml r obj =>
        rw [show (runOp m srv (.putYaml r obj)).2 = (kubeUpdateYaml m srv r obj).2 from rfl,
          kubeUpdateYaml_dryRun_trace hdry] at hq2
        rcases List.mem_singleton.mp hq2 with rfl
        rfl
      | del r fg =>
        rw [show (runOp m srv (.del r fg)).2 = (kubeDelete m srv r fg).2 from rfl,
          kubeDelete_dryRun_trace hdry] at hq2
        cases hq2
      | get r n =>
        simp only [runOp, kubeGetReqs] at hq2
        rcases List.eq_of_mem_replicate hq2 with rfl
        rfl
    simp only [runScript] at hq
    split at hq
    · exact hop q hq
    · rcases List.mem_append.mp hq with h1 | h2
      · exact hop q h1
      · exact ih q h2

/-- Witness for C4: one dry-run script issuing put, delete, get and
put_yaml produces only GET probes. -/
theorem C4_dry_run_no_writes_witness :
    dryPkg.dryRun = true ∧
    ∀ q ∈ (runScript dryPkg foundSrv
        [.put svcRes headSvc, .del svcRes true, .get svcRes 3,
         .putYaml svcRes headSvc]).2, q.isWrite = false :=
  ⟨rfl, C4_dry_run_no_writes.2.2.2 dryPkg foundSrv
    [.put svcRes headSvc, .del svcRes true, .get svcRes 3, .putYaml svcRes headSvc] rfl⟩

end Kube

namespace Kube

/-- Witness for C3: concrete merges exercising all four conjuncts — the
resourceVersion copy, the Service success path, the Service immutable
port, and the ClusterRoleBinding immutable roleRef. -/
theorem C3_merge_objects_witness :
    ((KObj.other svcGVKc ⟨"foo", "bar", "42"⟩).meta.resourceVersion =
      (KObj.other svcGVKc ⟨"foo", "bar", "42"⟩).meta.resourceVersion) ∧
    (mergeObjects (.service svcGVKc ⟨"foo", "bar", "7"⟩ ⟨"10.0.0.1", 41⟩)
        (.service svcGVKc ⟨"foo", "bar", ""⟩ ⟨"", 0⟩) =
      .ok (.service svcGVKc ⟨"foo", "bar", "7"⟩ ⟨"10.0.0.1", 41⟩)) ∧
    (mergeObjects (.service svcGVKc ⟨"foo", "bar", "7"⟩ ⟨"10.0.0.1", 41⟩)
        (.service svcGVKc ⟨"foo", "bar", ""⟩ ⟨"", 42⟩) =
      .error (errImmutableRessource ".spec.healthCheckNodePort"
        (.service svcGVKc ⟨"foo", "bar", ""⟩ ⟨"10.0.0.1", 42⟩))) ∧
    (mergeObjects
        (.clusterRoleBinding crbGVKc ⟨"cb", "", "9"⟩ ⟨"g", "ClusterRole", "foo"⟩)
        (.clusterRoleBinding crbGVKc ⟨"cb", "", ""⟩ ⟨"g", "ClusterRole", "bar"⟩) =
      .error (errImmutableRessource "roleRef"
        (.clusterRoleBinding crbGVKc ⟨"cb", "", ""⟩ ⟨"g", "ClusterRole", "bar"⟩))) := by
  refine ⟨?_, ?_, ?_, ?_⟩
  · exact C3_merge_objects.1 (.other svcGVKc ⟨"foo", "bar", "42"⟩)
      (.other svcGVKc ⟨"foo", "bar", ""⟩) (.other svcGVKc ⟨"foo", "bar", "42"⟩)
      rfl (by decide)
  · exact C3_merge_objects.2.1 svcGVKc ⟨"foo", "bar", "7"⟩ ⟨"10.0.0.1", 41⟩
      svcGVKc ⟨"foo", "bar", ""⟩ ⟨"", 0⟩ (by decide)
  · exact C3_merge_objects.2.2.1 svcGVKc ⟨"foo", "bar", "7"⟩ ⟨"10.0.0.1", 41⟩
      svcGVKc ⟨"foo", "bar", ""⟩ ⟨"", 42⟩ (by decide) (by decide) (by decide)
  · exact C3_merge_objects.2.2.2 crbGVKc ⟨"cb", "", "9"⟩ ⟨"g", "ClusterRole", "foo"⟩
      crbGVKc ⟨"cb", "", ""⟩ ⟨"g", "ClusterRole", "bar"⟩ (by decide)

end Kube

/-! ### kubeGet wait loop (pkg/kube)

`kubeGet` seeds a one-slot channel so the first probe happens immediately
and is documented ("will retry every waitRetryInterval", and
`waitRetryInterval is a duration between consecutive get retries`) to
retry every second.  Its loop is

    for (
      select (
        case retryCh <- time.After(waitRetryInterval):
        case <-retryCh:  probe; if found return; if waitDone == nil return NotFound
        case <-waitDone: return NotFound
        case <-ctx.Done(): return ctx.Err()
      )
    )

The value SENT into `retryCh` is the timer channel that `time.After`
returns, and the receive case discards it: no select case ever receives
from the timer itself.  We model the loop for the scenario of the claim —
server always answers 404, `wait > 0`, inside the window before the wait
deadline — where in every state exactly one case is ready: receive when
the buffer is full, send when it is empty.  A Go select blocks (and
wall-clock time passes in this loop) only when no case is ready, so the
model adds to `elapsedMs` only on a blocked round, of which there are
none. -/

namespace KubeGetLoop

/-- State of the retry loop: whether `retryCh`'s one-slot buffer holds a
value, the number of probes (GETs) performed so far, and the milliseconds
spent blocked in select so far. -/
structure LoopState where
  bufFull : Bool
  probes : Nat
  elapsedMs : Nat
deriving DecidableEq, Repr

/-- The documented retry interval (`waitRetryInterval = 1 * time.Second`),
in milliseconds. -/
def waitRetryIntervalMs : Nat := 1000

/-- The receive case `<-retryCh` is ready iff the buffer holds a value. -/
def recvReady (s : LoopState) : Bool := s.bufFull

/-- The send case `retryCh <- time.After(...)` is ready iff the one-slot
buffer has room. -/
def sendReady (s : LoopState) : Bool := !s.bufFull

/-- One select round before the wait deadline with the server returning
404: when the receive case is ready it fires — the buffered value (the
discarded timer channel or the seed) is thrown away and the probe runs,
finds nothing, and the loop continues; otherwise the send case is ready
and fires at once, storing the freshly created timer channel, which
nothing ever reads, into the buffer.  Neither branch blocks, so no
wall-clock time is added; a blocked select round would add its blocking
time to `elapsedMs`. -/
def stepLoop (s : LoopState) : LoopState :=
  if recvReady s then { bufFull := false, probes := s.probes + 1, elapsedMs := s.elapsedMs }
  else { bufFull := true, probes := s.probes, elapsedMs := s.elapsedMs }

/-- The loop entry state: `retryCh <- struct{}{}` seeds the buffer, so the
first round probes immediately. -/
def initLoop : LoopState := ⟨true, 0, 0⟩

/-- The loop after `n` select rounds. -/
def runLoop : Nat → LoopState
  | 0 => initLoop
  | n + 1 => stepLoop (runLoop n)

/-- C5 (bug evidence): on `kube.get(..., wait > 0)` with the object never
found, the code probes immediately but does NOT retry every 1 second: in
every loop state a select case is ready at once (so the select never
blocks on the discarded timer), zero blocked time accumulates while the
probe count grows without bound — two probes already happen with 0 ms
between them, not `waitRetryIntervalMs`. -/
theorem C5_kubeGet_busy_loop :
    (∀ s : LoopState, recvReady s = true ∨ sendReady s = true) ∧
    (runLoop 1).probes = 1 ∧
    (∀ n, (runLoop n).elapsedMs = 0) ∧
    (∀ n, runLoop (2 * n) = ⟨true, n, 0⟩) ∧
    ((runLoop 4).probes = 2 ∧ (runLoop 4).elapsedMs < waitRetryIntervalMs) := by
  have hstep : ∀ n, runLoop (2 * (n + 1)) = stepLoop (stepLoop (runLoop (2 * n))) := by
    intro n
    have h2 : 2 * (n + 1) = (2 * n + 1) + 1 := by omega
    rw [h2]
    rfl
  have heven : ∀ n, runLoop (2 * n) = ⟨true, n, 0⟩ := by
    intro n
    induction n with
    | zero => rfl
    | succ k ih =>
      rw [hstep k, ih]
      rfl
  have helapsed : ∀ n, (runLoop n).elapsedMs = 0 := by
    intro n
    induction n with
    | zero => rfl
    | succ k ih =>
      show (stepLoop (runLoop k)).elapsedMs = 0
      unfold stepLoop
      split <;> simpa using ih
  refine ⟨?_, rfl, helapsed, heven, ?_, ?_⟩
  · intro s
    cases h : s.bufFull
    · exact Or.inr (by simp [sendReady, h])
    · exact Or.inl (by simp [recvReady, h])
  · have := heven 2
    rw [show (4 : Nat) = 2 * 2 from rfl, this]
  · have := helapsed 4
    rw [this]
    decide

end KubeGetLoop

/-! ### Rollout store and the install command
(pkg/store/kube/store.go, pkg/runtime/runtime.go)

The Kubernetes-backed store persists rollouts and addon runs as config
maps; `runCommand(install)` creates a rollout, installs each addon and
records its run, and marks the rollout live via `CompleteRollout` only
after every addon succeeded. -/

namespace Store

/-- Names of the config maps the rollout machinery touches.  The Go store
names them `rollout-live`, `rollout-<xid>` and `<addon>-run-<xid>`; the
xid-generated identifiers are modelled by a counter, distinct by
construction from the reserved `rollout-live` name and from each other
(the Go code likewise assumes xid collisions are absent). -/
inductive CMName where
  | rolloutLive
  | rolloutId (n : Nat)
  | addonRun (addon : String) (n : Nat)
deriving DecidableEq, Repr

/-- The string the Go store would use for a name. -/
def CMName.render : CMName → String
  | .rolloutLive => "rollout-live"
  | .rolloutId n => "rollout-" ++ toString n
  | .addonRun a n => a ++ "-run-" ++ toString n

/-- A config map: name, labels, data, and an optional owner reference
(run → rollout). -/
structure ConfigMap where
  name : CMName
  labels : List (String × String)
  data : List (String × String)
  owner : Option CMName
deriving DecidableEq, Repr

/-- Go map read with zero-value default (`rollout.Data[addon.Name]`). -/
def mapGet (m : List (String × String)) (k : String) : String :=
  ((m.find? (fun kv => kv.1 = k)).map (fun kv => kv.2)).getD ""

/-- Go map write. -/
def mapSet (m : List (String × String)) (k v : String) : List (String × String) :=
  if (m.find? (fun kv => kv.1 = k)).isSome then
    m.map (fun kv => if kv.1 = k then (k, v) else kv)
  else m ++ [(k, v)]

/-- The cluster-side state the store operates on, plus the xid counter. -/
structure StoreSt where
  cms : List ConfigMap
  nextId : Nat
deriving DecidableEq, Repr

/-- Kubernetes Get by name. -/
def getCM (cms : List ConfigMap) (n : CMName) : Option ConfigMap :=
  cms.find? (fun cm => cm.name = n)

/-- Kubernetes Create: fails with AlreadyExists on a name collision. -/
def createCM (cms : List ConfigMap) (cm : ConfigMap) : Except String (List ConfigMap) :=
  if (getCM cms cm.name).isSome then .error "already exists"
  else .ok (cms ++ [cm])

/-- Kubernetes Update: fails with NotFound when the name is absent,
otherwise replaces the object of that name. -/
def updateCM (cms : List ConfigMap) (cm : ConfigMap) : Except String (List ConfigMap) :=
  if (getCM cms cm.name).isSome then
    .ok (cms.map (fun c => if c.name = cm.name then cm else c))
  else .error "not found"

/-- Model of `Store.CreateRollout`: create `rollout-<xid>` and return its
name as the rollout id. -/
def createRollout (st : StoreSt) : Except String (StoreSt × CMName) :=
  let nm := CMName.rolloutId st.nextId
  match createCM st.cms ⟨nm, [], [], none⟩ with
  | .error e => .error e
  | .ok cms => .ok (⟨cms, st.nextId + 1⟩, nm)

/-- One addon as the install command sees it: its name, the outcome of
its `install(ctx)` callback (the script body's own cluster effects are
outside the rollout-store model), and the loaded-modules snapshot. -/
structure AddonM where
  name : String
  installRes : Except String Unit
  modules : List (String × String)

/-- Stand-in for `yaml.Marshal(addon.Modules)`, which cannot fail for a
map of strings: a canonical one-line-per-entry encoding. -/
def encodeModules (mods : List (String × String)) : String :=
  String.intercalate "\n" (mods.map (fun kv => kv.1 ++ ": " ++ kv.2))

/-- The run config map `PutAddonRun` creates: named `<addon>-run-<xid>`,
labelled and owner-referenced by the rollout, carrying the addon name and
the marshalled modules. -/
def runCMFor (st : StoreSt) (id : CMName) (a : AddonM) : ConfigMap :=
  ⟨.addonRun a.name st.nextId, [("addon", a.name), ("owner", id.render)],
   [("addon", a.name), ("modules", encodeModules a.modules)], some id⟩

/-- Model of `Store.PutAddonRun`: read the rollout config map, create the
`<addon>-run-<xid>` config map owned by and labelled with the rollout,
reject a duplicate run for the same addon, then update the rollout map to
point at the run.  On an error after the create, the created run config
map stays in the cluster, as in Go. -/
def putAddonRun (st : StoreSt) (id : CMName) (a : AddonM) :
    Except String CMName × StoreSt :=
  match getCM st.cms id with
  | none => (.error "rollout not found", st)
  | some rollout =>
    let runName := CMName.addonRun a.name st.nextId
    match createCM st.cms (runCMFor st id a) with
    | .error e => (.error e, st)
    | .ok cms1 =>
      if mapGet rollout.data a.name ≠ "" then
        (.error ("addon run for addon `" ++ a.name ++ "' already exists"),
         ⟨cms1, st.nextId + 1⟩)
      else
        let rollout1 := { rollout with data := mapSet rollout.data a.name runName.render }
        match updateCM cms1 rollout1 with
        | .error e => (.error e, ⟨cms1, st.nextId + 1⟩)
        | .ok cms2 => (.ok runName, ⟨cms2, st.nextId + 1⟩)

/-- Label lookup on a config map. -/
def labelGet (cm : ConfigMap) (k : String) : String := mapGet cm.labels k

/-- The selector `metadata.name=rollout-live` plus `rollout=live` used by
`CompleteRollout`'s List call. -/
def liveSel (cm : ConfigMap) : Bool :=
  cm.name = CMName.rolloutLive ∧ labelGet cm "rollout" = "live"

/-- The fresh live-pointer config map created by `CompleteRollout`. -/
def liveCM (id : CMName) : ConfigMap :=
  ⟨.rolloutLive, [("rollout", "live")], [("rollout", id.render)], none⟩

/-- Model of `Store.CompleteRollout`: list the config map that is both
named `rollout-live` and labelled `rollout=live` (limit 1); when none is
found, create the live pointer for `id`; otherwise update the existing
one in place. -/
def completeRollout (st : StoreSt) (id : CMName) : Except String Unit × StoreSt :=
  match (st.cms.filter liveSel).take 1 with
  | [] =>
    match createCM st.cms (liveCM id) with
    | .error e => (.error e, st)
    | .ok cms => (.ok (), ⟨cms, st.nextId⟩)
  | live :: _ =>
    let live1 := { live with data := mapSet live.data "rollout" id.render }
    match updateCM st.cms live1 with
    | .error e => (.error e, st)
    | .ok cms => (.ok (), ⟨cms, st.nextId⟩)

/-- The per-addon loop of `runCommand(install)`: run each addon's install
callback, then record its run; stop at the first failure
(`runUntilErr`). -/
def installPhase (id : CMName) : StoreSt → List AddonM → Except String Unit × StoreSt
  | st, [] => (.ok (), st)
  | st, a :: rest =>
    match a.installRes with
    | .error e => (.error (a.name ++ " run failed: " ++ e), st)
    | .ok _ =>
      match putAddonRun st id a with
      | (.error e, st1) => (.error ("failed to store run state: " ++ e), st1)
      | (.ok _, st1) => installPhase id st1 rest

/-- The install callbacks alone, stopping at the first failure (the
dry-run path of the install command). -/
def firstInstallErr : List AddonM → Except String Unit
  | [] => .ok ()
  | a :: rest =>
    match a.installRes with
    | .error e => .error (a.name ++ " run failed: " ++ e)
    | .ok _ => firstInstallErr rest

/-- Model of the install branch of `runCommand`: under dry run only the
install callbacks run (no store activity and no rollout); otherwise
create a rollout, run the per-addon phase, and only when every addon
succeeded invoke `CompleteRollout`.  The boolean records whether
`CompleteRollout` was invoked. -/
def runInstall (st : StoreSt) (addons : List AddonM) (dryrun : Bool) :
    Except String Unit × StoreSt × Bool :=
  if dryrun then (firstInstallErr addons, st, false)
  else
    match createRollout st with
    | .error e => (.error e, st, false)
    | .ok (st1, id) =>
      match installPhase id st1 addons with
      | (.error e, st2) => (.error e, st2, false)
      | (.ok _, st2) =>
        match completeRollout st2 id with
        | (.error e, st3) => (.error e, st3, true)
        | (.ok _, st3) => (.ok (), st3, true)

/-- The number of config maps named `rollout-live` (the live pointers). -/
def countLive (cms : List ConfigMap) : Nat :=
  (cms.filter (fun cm => cm.name = CMName.rolloutLive)).length

end Store

namespace Store

theorem getCM_some_name {cms : List ConfigMap} {q : CMName} {x : ConfigMap}
    (h : getCM cms q = some x) : x.name = q := by
  have := List.find?_some h
  simpa using this

theorem getCM_append_ne {cms : List ConfigMap} {cm : ConfigMap} {q : CMName}
    (h : cm.name ≠ q) : getCM (cms ++ [cm]) q = getCM cms q := by
  unfold getCM
  induction cms with
  | nil => simp [List.find?, h]
  | cons c rest ih =>
    simp only [List.cons_append, List.find?]
    cases hd : decide (c.name = q) <;> simp [hd, ih]

theorem getCM_append_of_some {cms : List ConfigMap} {q : CMName} {x : ConfigMap}
    (l : List ConfigMap) (h : getCM cms q = some x) : getCM (cms ++ l) q = some x := by
  unfold getCM at h ⊢
  induction cms with
  | nil => cases h
  | cons c rest ih =>
    simp only [List.find?] at h
    simp only [List.cons_append, List.find?]
    cases hd : decide (c.name = q) with
    | true =>
      rw [hd] at h
      exact h
    | false =>
      rw [hd] at h
      exact ih h

theorem getCM_map_replace_ne {cms : List ConfigMap} {nm q : CMName} {cm2 : ConfigMap}
    (hne : nm ≠ q) (hnm : cm2.name = nm) :
    getCM (cms.map (fun c => if c.name = nm then cm2 else c)) q = getCM cms q := by
  unfold getCM
  induction cms with
  | nil => rfl
  | cons c rest ih =>
    simp only [List.map_cons, List.find?]
    by_cases hc : c.name = nm
    · have h1 : decide (cm2.name = q) = false := by
        simp only [decide_eq_false_iff_not]
        rw [hnm]
        exact hne
      have h2 : decide (c.name = q) = false := by
        simp only [decide_eq_false_iff_not]
        rw [hc]
        exact hne
      have h3 : decide (nm = q) = false := by
        simp only [decide_eq_false_iff_not]
        exact hne
      simp [hc, h1, h2, h3, ih]
    · simp only [if_neg hc]
      cases hd : decide (c.name = q) <;> simp [hd, ih]

theorem getCM_map_replace_hit {cms : List ConfigMap} {q : CMName} {x cm2 : ConfigMap}
    (h : getCM cms q = some x) (hnm : cm2.name = q) :
    getCM (cms.map (fun c => if c.name = q then cm2 else c)) q = some cm2 := by
  unfold getCM at h ⊢
  induction cms with
  | nil => cases h
  | cons c rest ih =>
    simp only [List.map_cons, List.find?]
    by_cases hc : c.name = q
    · simp [hc, hnm]
    · simp only [if_neg hc]
      simp only [List.find?] at h
      have hd : decide (c.name = q) = false := by simp [hc]
      rw [hd] at h
      simp only [hd]
      exact ih h

theorem countLive_append_ne {cms : List ConfigMap} {cm : ConfigMap}
    (h : cm.name ≠ CMName.rolloutLive) :
    countLive (cms ++ [cm]) = countLive cms := by
  unfold countLive
  rw [List.filter_append]
  simp [h]

theorem countLive_map_replace {cms : List ConfigMap} {nm : CMName} {cm2 : ConfigMap}
    (hnm : cm2.name = nm) :
    countLive (cms.map (fun c => if c.name = nm then cm2 else c)) = countLive cms := by
  unfold countLive
  induction cms with
  | nil => rfl
  | cons c rest ih =>
    simp only [List.map_cons, List.filter]
    by_cases hc : c.name = nm
    · have hsame : decide (cm2.name = CMName.rolloutLive) = decide (c.name = CMName.rolloutLive) := by
        rw [hnm, hc]
      simp only [if_pos hc, hsame]
      cases hd : decide (c.name = CMName.rolloutLive) <;> simp [hd, ih]
    · simp only [if_neg hc]
      cases hd : decide (c.name = CMName.rolloutLive) <;> simp [hd, ih]

theorem countLive_zero_of_getCM_none {cms : List ConfigMap}
    (h : getCM cms .rolloutLive = none) : countLive cms = 0 := by
  unfold getCM at h
  unfold countLive
  induction cms with
  | nil => rfl
  | cons c rest ih =>
    simp only [List.find?] at h
    cases hd : decide (c.name = CMName.rolloutLive) with
    | true =>
      rw [hd] at h
      cases h
    | false =>
      rw [hd] at h
      simp only [List.filter, hd]
      exact ih h

theorem getCM_unique_live {cms : List ConfigMap} {x : ConfigMap}
    (hcount : countLive cms ≤ 1) (hmem : x ∈ cms) (hname : x.name = .rolloutLive) :
    getCM cms .rolloutLive = some x := by
  unfold getCM
  unfold countLive at hcount
  induction cms with
  | nil => cases hmem
  | cons c rest ih =>
    rcases List.mem_cons.mp hmem with rfl | hmem2
    · simp [List.find?, hname]
    · simp only [List.find?]
      cases hd : decide (c.name = CMName.rolloutLive) with
      | false =>
        simp only [List.filter, hd] at hcount
        exact ih hcount hmem2
      | true =>
        -- a second live-named map would make the count at least 2
        exfalso
        simp only [List.filter, hd, List.length_cons] at hcount
        have hx : x ∈ rest.filter (fun cm => cm.name = CMName.rolloutLive) := by
          apply List.mem_filter.mpr
          exact ⟨hmem2, by simp [hname]⟩
        have : 1 ≤ (rest.filter (fun cm => cm.name = CMName.rolloutLive)).length :=
          List.length_pos.mpr (List.ne_nil_of_mem hx)
        omega

end Store

namespace Store

/-- `PutAddonRun` never touches the live pointer: it creates a run config
map and updates the rollout's own config map. -/
theorem putAddonRun_preserves_live {st : StoreSt} {n : Nat} {a : AddonM} :
    getCM ((putAddonRun st (.rolloutId n) a).2).cms .rolloutLive =
      getCM st.cms .rolloutLive := by
  unfold putAddonRun
  cases hget : getCM st.cms (.rolloutId n) with
  | none => rfl
  | some rollout =>
    have hname : rollout.name = .rolloutId n := getCM_some_name hget
    dsimp only
    unfold createCM
    by_cases hex : (getCM st.cms (runCMFor st (.rolloutId n) a).name).isSome = true
    · rw [if_pos hex]
    · rw [if_neg hex]
      have happ : getCM (st.cms ++ [runCMFor st (.rolloutId n) a]) .rolloutLive =
          getCM st.cms .rolloutLive :=
        getCM_append_ne (by intro hcontra; cases hcontra)
      dsimp only
      by_cases hdup : mapGet rollout.data a.name ≠ ""
      · rw [if_pos hdup]
        exact happ
      · rw [if_neg hdup]
        unfold updateCM
        split
        · exact happ
        next x cms2 heq =>
          dsimp only at heq
          have hsome : (getCM (st.cms ++ [runCMFor st (.rolloutId n) a])
              rollout.name).isSome = true := by
            rw [hname, getCM_append_of_some _ hget]
            rfl
          rw [if_pos hsome] at heq
          injection heq with heq2
          subst heq2
          dsimp only
          rw [@getCM_map_replace_ne _ rollout.name _
            ⟨rollout.name, rollout.labels,
              mapSet rollout.data a.name (CMName.addonRun a.name st.nextId).render,
              rollout.owner⟩ ?hne rfl]
          case hne =>
            rw [hname]
            intro hcontra
            cases hcontra
          exact happ

/-- The install phase never touches the live pointer either. -/
theorem installPhase_preserves_live {n : Nat} :
    ∀ (addons : List AddonM) (st : StoreSt),
    getCM ((installPhase (.rolloutId n) st addons).2).cms .rolloutLive =
      getCM st.cms .rolloutLive := by
  intro addons
  induction addons with
  | nil => intro st; rfl
  | cons a rest ih =>
    intro st
    unfold installPhase
    cases a.installRes with
    | error e => rfl
    | ok u =>
      dsimp only
      cases hput : putAddonRun st (.rolloutId n) a with
      | mk res st1 =>
        cases res with
        | error e => 
          have := @putAddonRun_preserves_live st n a
          rw [hput] at this
          exact this
        | ok runName =>
          have hpre := @putAddonRun_preserves_live st n a
          rw [hput] at hpre
          rw [ih st1]
          exact hpre

/-- A successful install phase means every addon's install callback (and
its run-record write) succeeded. -/
theorem installPhase_ok {id : CMName} :
    ∀ (addons : List AddonM) (st : StoreSt),
    (installPhase id st addons).1 = .ok () →
    ∀ a ∈ addons, a.installRes = .ok () := by
  intro addons
  induction addons with
  | nil =>
    intro st h a ha
    cases ha
  | cons b rest ih =>
    intro st h a ha
    unfold installPhase at h
    rcases List.mem_cons.mp ha with rfl | hmem
    · cases hres : a.installRes with
      | error e =>
        rw [hres] at h
        cases h
      | ok u =>
        cases u
        rfl
    · cases hres : b.installRes with
      | error e =>
        rw [hres] at h
        cases h
      | ok u =>
        rw [hres] at h
        dsimp only at h
        cases hput : putAddonRun st id b with
        | mk res st1 =>
          rw [hput] at h
          cases res with
          | error e => cases h
          | ok runName => exact ih st1 h a hmem

end Store

namespace Store

theorem countLive_append_live {cms : List ConfigMap} {cm : ConfigMap}
    (h : cm.name = CMName.rolloutLive) :
    countLive (cms ++ [cm]) = countLive cms + 1 := by
  unfold countLive
  rw [List.filter_append]
  simp [h]

/-- When no live pointer exists, `CompleteRollout` creates it. -/
theorem completeRollout_creates {st : StoreSt} {id : CMName}
    (hfilter : st.cms.filter liveSel = [])
    (hnone : getCM st.cms .rolloutLive = none) :
    completeRollout st id = (.ok (), ⟨st.cms ++ [liveCM id], st.nextId⟩) := by
  unfold completeRollout
  rw [hfilter]
  dsimp only [List.take]
  unfold createCM liveCM
  dsimp only
  rw [hnone]
  rfl

/-- When the live pointer exists (and live pointers are unique), the one
config map is updated in place: no create happens, the pointer follows
`id`, and the number of `rollout-live` config maps is unchanged. -/
theorem completeRollout_updates {st : StoreSt} {id : CMName} {live : ConfigMap}
    {rest : List ConfigMap}
    (hcount : countLive st.cms ≤ 1)
    (hfilter : st.cms.filter liveSel = live :: rest) :
    ∃ cms2, completeRollout st id = (.ok (), ⟨cms2, st.nextId⟩) ∧
      getCM cms2 .rolloutLive =
        some ⟨live.name, live.labels, mapSet live.data "rollout" id.render, live.owner⟩ ∧
      countLive cms2 = countLive st.cms := by
  have hmem0 : live ∈ st.cms.filter liveSel := by
    rw [hfilter]
    exact List.mem_cons_self ..
  have hmem : live ∈ st.cms := (List.mem_filter.mp hmem0).1
  have hsel : liveSel live = true := (List.mem_filter.mp hmem0).2
  have hname : live.name = .rolloutLive := by
    have := hsel
    unfold liveSel at this
    simp only [decide_eq_true_eq] at this
    exact this.1
  have hget : getCM st.cms .rolloutLive = some live :=
    getCM_unique_live hcount hmem hname
  unfold completeRollout
  rw [hfilter]
  dsimp only [List.take]
  unfold updateCM
  dsimp only
  have hsome : (getCM st.cms live.name).isSome = true := by
    rw [hname, hget]
    rfl
  rw [if_pos hsome]
  refine ⟨_, rfl, ?_, ?_⟩
  · have hhit := @getCM_map_replace_hit st.cms live.name live
      ⟨live.name, live.labels, mapSet live.data "rollout" id.render, live.owner⟩
      (by rw [hname]; exact hget) rfl
    rw [← hname]
    exact hhit
  · exact countLive_map_replace rfl

/-- `CompleteRollout` keeps the live pointer unique. -/
theorem completeRollout_countLive {st : StoreSt} {id : CMName}
    (h : countLive st.cms ≤ 1) :
    countLive ((completeRollout st id).2).cms ≤ 1 := by
  unfold completeRollout
  cases hf : (st.cms.filter liveSel).take 1 with
  | nil =>
    dsimp only
    unfold createCM liveCM
    dsimp only
    cases hg : getCM st.cms .rolloutLive with
    | some x => simp [h]
    | none =>
      have h0 : countLive st.cms = 0 := countLive_zero_of_getCM_none hg
      have happ := @countLive_append_live st.cms
        ⟨.rolloutLive, [("rollout", "live")], [("rollout", id.render)], none⟩ rfl
      simp only [Option.isSome_none, Bool.false_eq_true, if_false, ite_false]
      rw [happ, h0]
  | cons live rest2 =>
    dsimp only
    unfold updateCM
    split
    · exact h
    next x cms2 heq =>
      split at heq
      · injection heq with heq2
        subst heq2
        dsimp only
        rw [@countLive_map_replace _ _ ⟨live.name, live.labels,
          mapSet live.data "rollout" id.render, live.owner⟩ rfl]
        exact h
      · cases heq

end Store

namespace Store

theorem createRollout_ok_shape {st : StoreSt} {pair : StoreSt × CMName}
    (h : createRollout st = .ok pair) :
    pair = (⟨st.cms ++ [⟨.rolloutId st.nextId, [], [], none⟩], st.nextId + 1⟩,
            .rolloutId st.nextId) := by
  unfold createRollout createCM at h
  dsimp only at h
  by_cases hex : (getCM st.cms (CMName.rolloutId st.nextId)).isSome = true
  · rw [if_pos hex] at h
    cases h
  · rw [if_neg hex] at h
    dsimp only at h
    injection h with h1
    exact h1.symm

theorem putAddonRun_countLive {st : StoreSt} {id : CMName} {a : AddonM} :
    countLive ((putAddonRun st id a).2).cms = countLive st.cms := by
  unfold putAddonRun
  cases hget : getCM st.cms id with
  | none => rfl
  | some rollout =>
    dsimp only
    unfold createCM
    by_cases hex : (getCM st.cms (runCMFor st id a).name).isSome = true
    · rw [if_pos hex]
    · rw [if_neg hex]
      have happ : countLive (st.cms ++ [runCMFor st id a]) = countLive st.cms :=
        countLive_append_ne (by intro hcontra; cases hcontra)
      dsimp only
      by_cases hdup : mapGet rollout.data a.name ≠ ""
      · rw [if_pos hdup]
        exact happ
      · rw [if_neg hdup]
        unfold updateCM
        split
        · exact happ
        next x cms2 heq =>
          split at heq
          · injection heq with heq2
            subst heq2
            dsimp only
            rw [@countLive_map_replace _ _ ⟨rollout.name, rollout.labels,
              mapSet rollout.data a.name (CMName.addonRun a.name st.nextId).render,
              rollout.owner⟩ rfl]
            exact happ
          · cases heq

theorem installPhase_countLive {id : CMName} :
    ∀ (addons : List AddonM) (st : StoreSt),
    countLive ((installPhase id st addons).2).cms = countLive st.cms := by
  intro addons
  induction addons with
  | nil => intro st; rfl
  | cons a rest ih =>
    intro st
    unfold installPhase
    cases a.installRes with
    | error e => rfl
    | ok u =>
      dsimp only
      cases hput : putAddonRun st id a with
      | mk res st1 =>
        have hpre : countLive st1.cms = countLive st.cms := by
          have := @putAddonRun_countLive st id a
          rw [hput] at this
          exact this
        cases res with
        | error e => exact hpre
        | ok runName =>
          rw [ih st1]
          exact hpre

theorem runInstall_flag_true {st : StoreSt} {addons : List AddonM}
    (h : (runInstall st addons false).2.2 = true) :
    ∀ a ∈ addons, a.installRes = .ok () := by
  unfold runInstall at h
  simp only [Bool.false_eq_true, if_false, ite_false] at h
  cases hcr : createRollout st with
  | error e =>
    rw [hcr] at h
    cases h
  | ok pair =>
    rw [hcr] at h
    obtain ⟨st1, id⟩ := pair
    dsimp only at h
    cases hip : installPhase id st1 addons with
    | mk res st2 =>
      rw [hip] at h
      cases res with
      | error e => cases h
      | ok u =>
        intro a ha
        have hok : (installPhase id st1 addons).1 = .ok () := by
          rw [hip]
        exact installPhase_ok addons st1 hok a ha

theorem runInstall_flag_false_preserves {st : StoreSt} {addons : List AddonM}
    (h : (runInstall st addons false).2.2 = false) :
    getCM ((runInstall st addons false).2.1).cms .rolloutLive =
      getCM st.cms .rolloutLive := by
  unfold runInstall at h ⊢
  simp only [Bool.false_eq_true, if_false, ite_false] at h ⊢
  cases hcr : createRollout st with
  | error e => rfl
  | ok pair =>
    rw [hcr] at h
    have hshape := createRollout_ok_shape hcr
    obtain ⟨st1, id⟩ := pair
    injection hshape with h1 h2
    subst h1
    subst h2
    dsimp only at h ⊢
    have hst1 : getCM (st.cms ++ [(⟨.rolloutId st.nextId, [], [], none⟩ : ConfigMap)])
        .rolloutLive = getCM st.cms .rolloutLive :=
      getCM_append_ne (by intro hcontra; cases hcontra)
    cases hip : installPhase (.rolloutId st.nextId)
        ⟨st.cms ++ [⟨.rolloutId st.nextId, [], [], none⟩], st.nextId + 1⟩ addons with
    | mk res st2 =>
      rw [hip] at h
      have hpre : getCM st2.cms .rolloutLive = getCM st.cms .rolloutLive := by
        have := installPhase_preserves_live (n := st.nextId) addons
          ⟨st.cms ++ [⟨.rolloutId st.nextId, [], [], none⟩], st.nextId + 1⟩
        rw [hip] at this
        dsimp only at this
        rw [this]
        exact hst1
      cases res with
      | error e => exact hpre
      | ok u =>
        dsimp only at h
        cases hcp : completeRollout st2 (.rolloutId st.nextId) with
        | mk res2 st3 =>
          rw [hcp] at h
          cases res2 with
          | error e => cases h
          | ok u2 => cases h

theorem runInstall_countLive {st : StoreSt} {addons : List AddonM} {dryrun : Bool}
    (h : countLive st.cms ≤ 1) :
    countLive ((runInstall st addons dryrun).2.1).cms ≤ 1 := by
  unfold runInstall
  cases dryrun with
  | true => exact h
  | false =>
    simp only [Bool.false_eq_true, if_false, ite_false]
    cases hcr : createRollout st with
    | error e => exact h
    | ok pair =>
      have hshape := createRollout_ok_shape hcr
      obtain ⟨st1, id⟩ := pair
      injection hshape with h1 h2
      subst h1
      subst h2
      dsimp only
      have hst1 : countLive (st.cms ++ [(⟨.rolloutId st.nextId, [], [], none⟩ : ConfigMap)]) =
          countLive st.cms :=
        countLive_append_ne (by intro hcontra; cases hcontra)
      cases hip : installPhase (.rolloutId st.nextId)
          ⟨st.cms ++ [⟨.rolloutId st.nextId, [], [], none⟩], st.nextId + 1⟩ addons with
      | mk res st2 =>
        have hpre : countLive st2.cms ≤ 1 := by
          have := @installPhase_countLive (.rolloutId st.nextId) addons
            ⟨st.cms ++ [⟨.rolloutId st.nextId, [], [], none⟩], st.nextId + 1⟩
          rw [hip] at this
          dsimp only at this
          rw [this, hst1]
          exact h
        cases res with
        | error e => exact hpre
        | ok u =>
          dsimp only
          cases hcp : completeRollout st2 (.rolloutId st.nextId) with
          | mk res2 st3 =>
            have := @completeRollout_countLive st2 (.rolloutId st.nextId) hpre
            rw [hcp] at this
            cases res2 with
            | error e => exact this
            | ok u2 => exact this

end Store

namespace Store

/-- An install run over an empty cluster, starting the xid counter at 0. -/
def stEmpty : StoreSt := ⟨[], 0⟩

/-- An addon whose install callback succeeds. -/
def goodAddon : AddonM := ⟨"a", .ok (), [("m", "v")]⟩

/-- An addon whose install callback fails. -/
def badAddon : AddonM := ⟨"b", .error "boom", []⟩

/-- A pre-existing live pointer, pointing at rollout 0. -/
def liveCM0 : ConfigMap := ⟨.rolloutLive, [("rollout", "live")], [("rollout", "rollout-0")], none⟩

/-- A cluster that already carries the live pointer `liveCM0`. -/
def liveSt : StoreSt := ⟨[liveCM0], 3⟩

/-- C8: in an install run, `CompleteRollout` is invoked only when every
selected addon's install callback and run-record write succeeded; if any
addon fails, the rollout is never marked live and the previous
`rollout-live` pointer is unchanged; when `CompleteRollout` does run it
updates the existing `rollout-live` config map if one exists and creates
it otherwise, so at most one live pointer ever exists. -/
theorem C8_rollout_live :
    (∀ (st : StoreSt) (addons : List AddonM),
      (runInstall st addons false).2.2 = true →
      ∀ a ∈ addons, a.installRes = .ok ()) ∧
    (∀ (st : StoreSt) (addons : List AddonM) (a : AddonM),
      a ∈ addons → a.installRes ≠ .ok () →
      (runInstall st addons false).2.2 = false ∧
      getCM ((runInstall st addons false).2.1).cms .rolloutLive =
        getCM st.cms .rolloutLive) ∧
    (∀ (st : StoreSt) (id : CMName) (live : ConfigMap) (rest : List ConfigMap),
      countLive st.cms ≤ 1 → st.cms.filter liveSel = live :: rest →
      ∃ cms2, completeRollout st id = (.ok (), ⟨cms2, st.nextId⟩) ∧
        getCM cms2 .rolloutLive =
          some ⟨live.name, live.labels, mapSet live.data "rollout" id.render, live.owner⟩ ∧
        countLive cms2 = countLive st.cms) ∧
    (∀ (st : StoreSt) (id : CMName),
      st.cms.filter liveSel = [] → getCM st.cms .rolloutLive = none →
      completeRollout st id = (.ok (), ⟨st.cms ++ [liveCM id], st.nextId⟩)) ∧
    (∀ (st : StoreSt) (addons : List AddonM) (dryrun : Bool),
      countLive st.cms ≤ 1 →
      countLive ((runInstall st addons dryrun).2.1).cms ≤ 1) := by
  refine ⟨?_, ?_, ?_, ?_, ?_⟩
  · intro st addons h
    exact runInstall_flag_true h
  · intro st addons a hmem hfail
    cases hflag : (runInstall st addons false).2.2 with
    | true => exact absurd (runInstall_flag_true hflag a hmem) hfail
    | false => exact ⟨rfl, runInstall_flag_false_preserves hflag⟩
  · intro st id live rest h1 h2
    exact completeRollout_updates h1 h2
  · intro st id h1 h2
    exact completeRollout_creates h1 h2
  · intro st addons dryrun h
    exact runInstall_countLive h

theorem C8_rollout_live_witness :
    (∀ a ∈ [goodAddon], a.installRes = .ok ()) ∧
    ((runInstall stEmpty [goodAddon, badAddon] false).2.2 = false ∧
      getCM ((runInstall stEmpty [goodAddon, badAddon] false).2.1).cms .rolloutLive =
        getCM stEmpty.cms .rolloutLive) ∧
    (∃ cms2, completeRollout liveSt (.rolloutId 2) = (.ok (), ⟨cms2, liveSt.nextId⟩) ∧
      getCM cms2 .rolloutLive =
        some ⟨liveCM0.name, liveCM0.labels,
          mapSet liveCM0.data "rollout" (CMName.rolloutId 2).render, liveCM0.owner⟩ ∧
      countLive cms2 = countLive liveSt.cms) ∧
    (completeRollout stEmpty (.rolloutId 0) =
      (.ok (), ⟨stEmpty.cms ++ [liveCM (.rolloutId 0)], stEmpty.nextId⟩)) ∧
    (countLive ((runInstall liveSt [goodAddon] false).2.1).cms ≤ 1) :=
  ⟨C8_rollout_live.1 stEmpty [goodAddon] (by decide),
   C8_rollout_live.2.1 stEmpty [goodAddon, badAddon] badAddon
     (List.mem_cons_of_mem _ (List.mem_cons_self ..))
     (fun hcon => Except.noConfusion hcon),
   C8_rollout_live.2.2.1 liveSt (.rolloutId 2) liveCM0 [] (by decide) (by decide),
   C8_rollout_live.2.2.2.1 stEmpty (.rolloutId 0) rfl rfl,
   C8_rollout_live.2.2.2.2 liveSt [goodAddon] false (by decide)⟩

end Store
